import Mathlib

/-!
Verification of the deck-injection and collection-merge subsystem of the
lms-backend repository (`lms/services/deck_injector.py` and
`lms/services/anki_analytics.py`), as a shallow embedding in Lean 4.

The embedding mirrors the Python source line by line:
* SQLite rows become structures (`NoteRow`, `CardRow`), the JSON notetype and
  deck blobs become `ModelJson` / `DeckJson` with the two interpreted
  sub-fields (`name`, `id`) plus `usn` and an opaque `rest` payload.
* A collection database is a `Collection` value; Python dicts keyed by
  stringified ids become association lists over `Int` keys preserving
  insertion order (`dput` is dict assignment, replace-or-append).
* The id-remap dicts built by the merge become association lists with
  latest-assignment-wins lookup (`mput` / `mget`).
* The single SQLite transaction of `_import_collection_data` is modelled
  explicitly by `TxConn` (committed state / working state), so that the
  commit-once-at-the-end discipline of the code is visible in the model.
-/

/-- Python dict `.get`: the most recent assignment for the key wins. -/
def mget (m : List (Int × Int)) (k : Int) : Option Int :=
  (m.find? (fun p => p.1 == k)).map (fun p => p.2)

/-- Python dict assignment for the id-remap dicts (later `mget` sees the
latest value). -/
def mput (m : List (Int × Int)) (k v : Int) : List (Int × Int) :=
  (k, v) :: m

/-- Python dict assignment on an insertion-ordered table: replace in place if
the key exists, otherwise append. -/
def dput {α : Type} (l : List (Int × α)) (k : Int) (v : α) : List (Int × α) :=
  if l.any (fun p => p.1 == k) then
    l.map (fun p => if p.1 == k then (k, v) else p)
  else
    l ++ [(k, v)]

/-- `SELECT MAX(id) FROM t`: `none` on an empty table. -/
def listMax? : List Int → Option Int
  | [] => none
  | x :: xs => some (xs.foldl max x)

/-- The Python idiom `fetchone()[0] or 0` applied to a `MAX` result. -/
def pyOr0 : Option Int → Int
  | none => 0
  | some v => v

/-- A row of the `notes` table (columns as read by `_import_notes`). -/
structure NoteRow where
  id : Int
  guid : String
  mid : Int
  mod : Int
  usn : Int
  tags : String
  flds : String
  sfld : String
  csum : Int
  flags : Int
  data : String
deriving Repr, DecidableEq

/-- A row of the `cards` table (columns as read by `_import_cards`). -/
structure CardRow where
  id : Int
  nid : Int
  did : Int
  ord : Int
  mod : Int
  usn : Int
  type : Int
  queue : Int
  due : Int
  ivl : Int
  factor : Int
  reps : Int
  lapses : Int
  left : Int
  odue : Int
  odid : Int
  flags : Int
  data : String
deriving Repr, DecidableEq

/-- A notetype descriptor from the `col.models` JSON blob: the merge reads
`name`, writes `id` and `usn`, and copies the rest verbatim. -/
structure ModelJson where
  name : String
  id : Int
  usn : Int
  rest : String
deriving Repr, DecidableEq

/-- A deck descriptor from the `col.decks` JSON blob. -/
structure DeckJson where
  name : String
  id : Int
  usn : Int
  rest : String
deriving Repr, DecidableEq

/-- A collection database: the four entity tables plus the `col` row fields
touched by the merge. `models` and `decks` are the JSON objects of the `col`
row, keyed by (stringified) id, in insertion order. -/
structure Collection where
  models : List (Int × ModelJson)
  decks : List (Int × DeckJson)
  notes : List NoteRow
  cards : List CardRow
  colUsn : Int
  colMod : Int
deriving Repr, DecidableEq

/-! ## `_import_notetypes` -/

/-- Loop body of `_import_notetypes`: for each source model, look for the
first target model with the same name; Python then tests the found id for
truthiness (`if existing_model_id:`), so a match stored under key `0` falls
through to the insert branch. New models get
`max_model_id = max(max_model_id, model_id) + 1` as id and `usn = -1`. -/
def importNotetypesGo :
    List (Int × ModelJson) → List (Int × ModelJson) → Int → List (Int × Int) →
    List (Int × ModelJson) × List (Int × Int)
  | [], tgt, _, acc => (tgt, acc)
  | (mid, m) :: rest, tgt, maxId, acc =>
    let existing : Option Int :=
      match tgt.find? (fun p => p.2.name == m.name) with
      | some p => if p.1 == 0 then none else some p.1
      | none => none
    match existing with
    | some eid => importNotetypesGo rest tgt maxId (mput acc mid eid)
    | none =>
      let newId := max maxId mid + 1
      let m2 := { m with id := newId, usn := -1 }
      importNotetypesGo rest (dput tgt newId m2) newId (mput acc mid newId)

/-- `_import_notetypes`: merge source models into target models by name;
the running maximum starts at `max(keys + [0])`. Returns the updated target
model table and the source-id to target-id map. -/
def importNotetypes (src tgt : List (Int × ModelJson)) :
    List (Int × ModelJson) × List (Int × Int) :=
  importNotetypesGo src tgt (tgt.foldl (fun a p => max a p.1) 0) []

/-! ## `_import_decks` -/

/-- Loop body of `_import_decks`: deck id 1 (default deck) always maps to 1
and is never copied; otherwise match by name (again with the Python
truthiness test on the found id); a matched deck gets its `usn` refreshed to
`-1` in place; a new deck gets the next id above the running
timestamp-based maximum and `usn = -1`. -/
def importDecksGo :
    List (Int × DeckJson) → List (Int × DeckJson) → Int → List (Int × Int) →
    List (Int × DeckJson) × List (Int × Int)
  | [], tgt, _, acc => (tgt, acc)
  | (did, d) :: rest, tgt, maxId, acc =>
    if did == 1 then
      importDecksGo rest tgt maxId (mput acc did 1)
    else
      let existing : Option Int :=
        match tgt.find? (fun p => p.2.name == d.name) with
        | some p => if p.1 == 0 then none else some p.1
        | none => none
      match existing with
      | some eid =>
        let tgt2 := tgt.map (fun p => if p.1 == eid then (p.1, { p.2 with usn := -1 }) else p)
        importDecksGo rest tgt2 maxId (mput acc did eid)
      | none =>
        let newId := maxId + 1
        let d2 := { d with id := newId, usn := -1 }
        importDecksGo rest (dput tgt newId d2) newId (mput acc did newId)

/-- `_import_decks`: the running maximum id starts at the wall clock in
milliseconds (`int(time.time() * 1000)`), passed in as `nowMs`. -/
def importDecks (nowMs : Int) (src tgt : List (Int × DeckJson)) :
    List (Int × DeckJson) × List (Int × Int) :=
  importDecksGo src tgt nowMs []

/-! ## `_import_notes` -/

/-- Loop body of `_import_notes`: for each source note, the candidate id is
`old_id + id_offset + 1` and is recorded in the map first; if a target note
with the same `guid` exists the map entry is overwritten with the existing id
and the insert is skipped; otherwise the note is inserted with the remapped
notetype id and `usn = -1`. -/
def importNotesGo (off : Int) (mmap : List (Int × Int)) :
    List NoteRow → List NoteRow → List (Int × Int) →
    List NoteRow × List (Int × Int)
  | [], tgt, acc => (tgt, acc)
  | sn :: rest, tgt, acc =>
    let newId := sn.id + off + 1
    let acc1 := mput acc sn.id newId
    match tgt.find? (fun n => n.guid == sn.guid) with
    | some existing => importNotesGo off mmap rest tgt (mput acc1 sn.id existing.id)
    | none =>
      let newMid := (mget mmap sn.mid).getD sn.mid
      let n2 : NoteRow :=
        { sn with id := newId, mid := newMid, usn := -1 }
      importNotesGo off mmap rest (tgt ++ [n2]) acc1

/-- `_import_notes`: `id_offset` is the target `MAX(id)` computed before the
loop by the caller. -/
def importNotes (off : Int) (mmap : List (Int × Int))
    (src tgt : List NoteRow) : List NoteRow × List (Int × Int) :=
  importNotesGo off mmap src tgt []

/-! ## `_import_cards` -/

/-- Loop body of `_import_cards`: remap note id and deck id through the two
maps (falling back to the raw id when absent, Python `.get(k, k)`); skip the
card when the target already holds a card with the same
`(remapped note id, ord)`; otherwise insert with `usn = -1` and count it. -/
def importCardsGo (off : Int) (nmap dmap : List (Int × Int)) :
    List CardRow → List CardRow → Nat → List CardRow × Nat
  | [], tgt, cnt => (tgt, cnt)
  | c :: rest, tgt, cnt =>
    let newId := c.id + off + 1
    let newNid := (mget nmap c.nid).getD c.nid
    let newDid := (mget dmap c.did).getD c.did
    match tgt.find? (fun tc => tc.nid == newNid && tc.ord == c.ord) with
    | some _ => importCardsGo off nmap dmap rest tgt cnt
    | none =>
      let c2 : CardRow := { c with id := newId, nid := newNid, did := newDid, usn := -1 }
      importCardsGo off nmap dmap rest (tgt ++ [c2]) (cnt + 1)

/-- `_import_cards`, returning the updated target card table and the number
of cards actually inserted. -/
def importCards (off : Int) (nmap dmap : List (Int × Int))
    (src tgt : List CardRow) : List CardRow × Nat :=
  importCardsGo off nmap dmap src tgt 0

/-! ## The sync-trigger sweep and `_import_collection_data` -/

/-- `UPDATE cards SET usn = -1 WHERE usn >= 0`, per row. -/
def sweepCard (c : CardRow) : CardRow :=
  if 0 ≤ c.usn then { c with usn := -1 } else c

/-- `UPDATE notes SET usn = -1 WHERE usn >= 0`, per row. -/
def sweepNote (n : NoteRow) : NoteRow :=
  if 0 ≤ n.usn then { n with usn := -1 } else n

/-- `_import_collection_data` without failure: compute the two `MAX(id)`
offsets from the target as of merge start, run the four sub-imports in
dependency order, run the usn sweep, and set the `col` row markers
(`usn = -1`, `mod` = wall clock in milliseconds, `nowColMs`). `nowDeckMs` is
the wall clock read inside `_import_decks`. Returns the new target state and
the number of cards imported. -/
def importCollectionData (nowDeckMs nowColMs : Int) (source target : Collection) :
    Collection × Nat :=
  let maxNoteId := pyOr0 (listMax? (target.notes.map (fun n => n.id)))
  let maxCardId := pyOr0 (listMax? (target.cards.map (fun c => c.id)))
  let mm := importNotetypes source.models target.models
  let dm := importDecks nowDeckMs source.decks target.decks
  let nm := importNotes maxNoteId mm.2 source.notes target.notes
  let cm := importCards maxCardId nm.2 dm.2 source.cards target.cards
  ({ models := mm.1
     decks := dm.1
     notes := nm.1.map sweepNote
     cards := cm.1.map sweepCard
     colUsn := -1
     colMod := nowColMs }, cm.2)

/-! ## The transaction discipline of `_import_collection_data` -/

/-- A SQLite connection with an open implicit transaction: `committed` is
what the file holds, `working` is what the cursor sees. Closing without
committing rolls the working state back. -/
structure TxConn where
  committed : Collection
  working : Collection

/-- `sqlite3.connect`: the working state starts at the on-disk state. -/
def txOpen (c : Collection) : TxConn := { committed := c, working := c }

/-- A statement executed on the cursor mutates only the working state. -/
def txExec (t : TxConn) (f : Collection → Collection) : TxConn :=
  { t with working := f t.working }

/-- `conn.commit()`: the working state becomes the on-disk state. -/
def txCommit (t : TxConn) : TxConn := { t with committed := t.working }

/-- `conn.close()` from the `finally` block: uncommitted work is discarded
and the on-disk state is what remains observable. -/
def txClose (t : TxConn) : Collection := t.committed

/-- `_import_collection_data` with failure injection. `failAt = some i` means
the body raises at sub-phase `i` (0 = the initial count query, 1 = the
`MAX(id)` queries, 2 = notetype merge, 3 = deck merge, 4 = note merge,
5 = card merge, 6 = the usn-reset statements). The `finally` block closes the
connection on every path; `conn.commit()` appears exactly once, after all
seven sub-phases, exactly as in the source. Returns the observable on-disk
target state together with the result (`.error` models the raised
exception). -/
def importCollectionDataTx (failAt : Option Nat) (nowDeckMs nowColMs : Int)
    (source target : Collection) : Collection × Except String Nat :=
  let t0 := txOpen target
  if failAt = some 0 then (txClose t0, Except.error "MergeError") else
  let maxNoteId := pyOr0 (listMax? (t0.working.notes.map (fun n => n.id)))
  let maxCardId := pyOr0 (listMax? (t0.working.cards.map (fun c => c.id)))
  if failAt = some 1 then (txClose t0, Except.error "MergeError") else
  let mm := importNotetypes source.models t0.working.models
  let t1 := txExec t0 (fun c => { c with models := mm.1 })
  if failAt = some 2 then (txClose t1, Except.error "MergeError") else
  let dm := importDecks nowDeckMs source.decks t1.working.decks
  let t2 := txExec t1 (fun c => { c with decks := dm.1 })
  if failAt = some 3 then (txClose t2, Except.error "MergeError") else
  let nm := importNotes maxNoteId mm.2 source.notes t2.working.notes
  let t3 := txExec t2 (fun c => { c with notes := nm.1 })
  if failAt = some 4 then (txClose t3, Except.error "MergeError") else
  let cm := importCards maxCardId nm.2 dm.2 source.cards t3.working.cards
  let t4 := txExec t3 (fun c => { c with cards := cm.1 })
  if failAt = some 5 then (txClose t4, Except.error "MergeError") else
  let t5 := txExec t4 (fun c =>
    { c with cards := c.cards.map sweepCard
             notes := c.notes.map sweepNote
             colUsn := -1
             colMod := nowColMs })
  if failAt = some 6 then (txClose t5, Except.error "MergeError") else
  let t6 := txCommit t5
  (txClose t6, Except.ok cm.2)

/-! ## `_inject_from_apkg`, `inject_apkg`, `inject_deck_to_class`

The orchestration layer is modelled as a trace-producing function: each
observable step of `_inject_from_apkg` emits an event, in the order the
source performs it. -/

/-- Observable steps of one injection. -/
inductive Ev where
  | extractArchive
  | locateDb (name : String)
  | parseManifest
  | ensureMediaDir
  | copyMedia (name : String)
  | dbImport
  | updateMediaDb
deriving Repr, DecidableEq

/-- An uploaded `.apkg` archive as the injector sees it. `bytes` are the raw
archive bytes written to the temp file; `zipOk` is whether `zipfile.ZipFile`
accepts them (a truncated or non-zip byte string has `zipOk = false`);
`files` are the entry names present after extraction; `mediaJson` is the
parse of the `media` entry (`none` when the file is missing or unparsable,
which the code treats as an empty mapping); `sourceDb` is the collection
database embedded in the archive. -/
structure ApkgArchive where
  bytes : List Nat
  zipOk : Bool
  files : List String
  mediaJson : Option (List (String × String))
  sourceDb : Collection
deriving Repr, DecidableEq

/-- A student as the injector sees them: the filesystem key, whether
`collection.anki2` exists (has the student ever synced), its content, and an
environment oracle for whether `_import_collection_data` raises for this
student (disk error, schema mismatch, ...). -/
structure Student where
  email : String
  hasCollection : Bool
  collection : Collection
  mergeRaises : Bool
deriving Repr, DecidableEq

/-- Whether the first two archive bytes are the zip magic `PK`. -/
def zipMagicOk (bytes : List Nat) : Bool :=
  bytes.take 2 == [0x50, 0x4B]

/-- `_inject_from_apkg`, following the source order exactly: extract the
archive (returning the invalid-package failure if the zip layer rejects it),
locate the database preferring `collection.anki21`, parse the media
manifest, ensure the media directory, copy each manifest entry whose numeric
source file exists, then run `_import_collection_data` and the media
database update. Returns the event trace and the `(success, message)`
pair. -/
def injectFromApkg (nowDeckMs nowColMs : Int) (a : ApkgArchive) (s : Student) :
    List Ev × (Bool × String) :=
  if a.zipOk = false then
    ([Ev.extractArchive], (false, "Invalid .apkg file (not a valid zip)"))
  else
    match ["collection.anki21", "collection.anki2"].find? (fun n => a.files.contains n) with
    | none => ([Ev.extractArchive], (false, "No collection database found in .apkg"))
    | some dbName =>
      let mapping := a.mediaJson.getD []
      let copied := mapping.filter (fun p => a.files.contains p.1)
      let evs := [Ev.extractArchive, Ev.locateDb dbName, Ev.parseManifest, Ev.ensureMediaDir]
                   ++ copied.map (fun p => Ev.copyMedia p.2)
      if s.mergeRaises then
        (evs ++ [Ev.dbImport], (false, "Database error: import failed"))
      else
        let r := importCollectionData nowDeckMs nowColMs a.sourceDb s.collection
        (evs ++ [Ev.dbImport, Ev.updateMediaDb],
         (true, "Imported " ++ toString r.2 ++ " cards, " ++ toString copied.length
                ++ " media files"))

/-- `inject_apkg`: refuse before touching anything when the student has never
synced; otherwise run `_inject_from_apkg` with every exception caught and
turned into a `(False, message)` outcome. -/
def injectApkg (nowDeckMs nowColMs : Int) (a : ApkgArchive) (s : Student) :
    List Ev × (Bool × String) :=
  if s.hasCollection = false then
    ([], (false, "Student " ++ s.email ++ " has not synced yet"))
  else
    injectFromApkg nowDeckMs nowColMs a s

/-- Python dict assignment keyed by email for the batch result dict. -/
def sput {α : Type} (l : List (String × α)) (k : String) (v : α) :
    List (String × α) :=
  if l.any (fun p => p.1 == k) then
    l.map (fun p => if p.1 == k then (k, v) else p)
  else
    l ++ [(k, v)]

/-- Lookup in the batch result dict. -/
def sget {α : Type} (l : List (String × α)) (k : String) : Option α :=
  (l.find? (fun p => p.1 == k)).map (fun p => p.2)

/-- Loop of `inject_deck_to_class`: one full `inject_apkg` run per student,
accumulating the combined event trace and the per-email result dict. -/
def injectDeckToClassGo (nowDeckMs nowColMs : Int) (a : ApkgArchive) :
    List Student → List Ev → List (String × (Bool × String)) →
    List Ev × List (String × (Bool × String))
  | [], evs, res => (evs, res)
  | s :: rest, evs, res =>
    let r := injectApkg nowDeckMs nowColMs a s
    injectDeckToClassGo nowDeckMs nowColMs a rest (evs ++ r.1) (sput res s.email r.2)

/-- `inject_deck_to_class`: a fresh `DeckInjector` and a full `inject_apkg`
call for each email in order; always returns a result dict, never raises. -/
def injectDeckToClass (nowDeckMs nowColMs : Int) (a : ApkgArchive)
    (students : List Student) : List Ev × List (String × (Bool × String)) :=
  injectDeckToClassGo nowDeckMs nowColMs a students [] []

/-- Number of archive-extraction attempts in a trace. -/
def countExtract (evs : List Ev) : Nat :=
  evs.count Ev.extractArchive

/-- Is the event a media copy. -/
def isCopy : Ev → Bool
  | Ev.copyMedia _ => true
  | _ => false

/-- Is the event a Package Reader step (extraction, database location,
manifest parse). -/
def isReaderEv : Ev → Bool
  | Ev.extractArchive => true
  | Ev.locateDb _ => true
  | Ev.parseManifest => true
  | _ => false

/-- Is the event the database merge. -/
def isImportEv : Ev → Bool
  | Ev.dbImport => true
  | _ => false

/-- Every `p` event of the trace occurs strictly before every `q` event. -/
def EvBefore (t : List Ev) (p q : Ev → Bool) : Prop :=
  ∀ (i j : Nat) (e1 e2 : Ev), t[i]? = some e1 → p e1 = true →
    t[j]? = some e2 → q e2 = true → i < j

/-- Does some media copy occur before the database merge event (scanning the
prefix of the trace up to `dbImport`). -/
def mediaCopiedBeforeImport (t : List Ev) : Bool :=
  (t.takeWhile (fun e => !(e == Ev.dbImport))).any isCopy

/-! ## `sync_revlog` (`lms/services/anki_analytics.py`) -/

/-- A row of the `revlog` table as read by `sync_revlog`. -/
structure RevlogRow where
  id : Int
  cid : Int
  usn : Int
  ease : Int
  ivl : Int
  lastIvl : Int
  factor : Int
  time : Int
  type : Int
deriving Repr, DecidableEq

/-- The student collection database as seen through the read-only
connection, with each read step able to fail (`Except.error` models the
exception the sqlite layer or the JSON parser raises there): `connect` is
`sqlite3.connect` on the immutable URI, `decksQuery` is the `SELECT decks`
plus JSON parse yielding deck id and name pairs, `revlog` is the content of
the `revlog` table, `cardDid` the card-id to deck-id pairs served by the
chunked card queries. -/
structure AnkiDbView where
  connect : Except String Unit
  decksQuery : Except String (List (Int × String))
  revlog : Except String (List RevlogRow)
  cardDid : Except String (List (Int × Int))
deriving Repr

/-- The LMS-side state `sync_revlog` consults: the set of LMS deck titles,
the high-water mark of already-imported revlog ids, and whether the
student collection file exists. -/
structure LmsView where
  deckTitles : List String
  lastSynced : Int
  collectionExists : Bool
deriving Repr, DecidableEq

/-- Insertion into an id-ascending list (for `ORDER BY id`). -/
def revInsert (r : RevlogRow) : List RevlogRow → List RevlogRow
  | [] => [r]
  | x :: xs => if r.id ≤ x.id then r :: x :: xs else x :: revInsert r xs

/-- `ORDER BY id` ascending. -/
def revSortById : List RevlogRow → List RevlogRow
  | [] => []
  | x :: xs => revInsert x (revSortById xs)

/-- The body of the `try` block of `sync_revlog`: connect, read and parse
the deck table, keep the deck ids whose names are LMS deck titles (return 0
when none), query revlog rows past the high-water mark ordered ascending
and capped at 10000 (return 0 when none), read the card-to-deck map, and
keep only rows whose card maps to an allowed deck. Any raised exception
surfaces as `Except.error`. -/
def syncRevlogInner (db : AnkiDbView) (lms : LmsView) : Except String Nat := do
  let _ ← db.connect
  let decks ← db.decksQuery
  let allowed := (decks.filter (fun p => lms.deckTitles.contains p.2)).map (fun p => p.1)
  if allowed.isEmpty then
    return 0
  else
    let table ← db.revlog
    let rows := (revSortById (table.filter (fun r => lms.lastSynced < r.id))).take 10000
    if rows.isEmpty then
      return 0
    else
      let cardDid ← db.cardDid
      let newEntries := rows.filter (fun r =>
        match mget cardDid r.cid with
        | some d => allowed.contains d
        | none => false)
      return newEntries.length

/-- `sync_revlog`: return 0 when the collection file does not exist;
otherwise run the body with the two `except` clauses of the source
(`sqlite3.OperationalError` and the catch-all `Exception`) turning every
raised exception into a 0 result. -/
def syncRevlog (db : AnkiDbView) (lms : LmsView) : Nat :=
  if lms.collectionExists = false then 0
  else
    match syncRevlogInner db lms with
    | Except.ok n => n
    | Except.error _ => 0

/-! ## Concrete sample data for witnesses and counterexamples -/

/-- A notetype present in both sample databases. -/
def modelBasic : ModelJson := { name := "Basic", id := 100, usn := 0, rest := "basicblob" }

/-- The reserved default deck (id 1). -/
def deckDefault : DeckJson := { name := "Default", id := 1, usn := 0, rest := "defblob" }

/-- A source deck to be imported. -/
def deckDemo : DeckJson := { name := "Demo", id := 5, usn := 0, rest := "demoblob" }

/-- A source note. -/
def noteS : NoteRow :=
  { id := 10, guid := "g1", mid := 100, mod := 7, usn := 0, tags := "t",
    flds := "front", sfld := "front", csum := 11, flags := 0, data := "" }

/-- A source card belonging to `noteS` in `deckDemo`. -/
def cardS : CardRow :=
  { id := 20, nid := 10, did := 5, ord := 0, mod := 3, usn := 0, type := 0,
    queue := 0, due := 1, ivl := 0, factor := 2500, reps := 0, lapses := 0,
    left := 0, odue := 0, odid := 0, flags := 0, data := "" }

/-- A pre-existing, unrelated target note (positive usn, untouched by any
sample import). -/
def noteT : NoteRow :=
  { id := 50, guid := "t1", mid := 100, mod := 2, usn := 3, tags := "",
    flds := "old", sfld := "old", csum := 5, flags := 0, data := "" }

/-- A pre-existing target card belonging to `noteT` in the default deck. -/
def cardT : CardRow :=
  { id := 60, nid := 50, did := 1, ord := 0, mod := 2, usn := 2, type := 0,
    queue := 0, due := 9, ivl := 4, factor := 2300, reps := 5, lapses := 1,
    left := 0, odue := 0, odid := 0, flags := 0, data := "" }

/-- A freshly initialized target collection. -/
def tgt0 : Collection :=
  { models := [(100, modelBasic)], decks := [(1, deckDefault)],
    notes := [], cards := [], colUsn := 0, colMod := 0 }

/-- A target collection that already holds unrelated content. -/
def tgtB : Collection :=
  { models := [(100, modelBasic)], decks := [(1, deckDefault)],
    notes := [noteT], cards := [cardT], colUsn := 4, colMod := 123 }

/-- A source package database with one deck, one note, one card. -/
def src0 : Collection :=
  { models := [(100, modelBasic)], decks := [(1, deckDefault), (5, deckDemo)],
    notes := [noteS], cards := [cardS], colUsn := 0, colMod := 0 }

/-- A source package database with zero notes and zero cards. -/
def srcEmpty : Collection :=
  { models := [], decks := [], notes := [], cards := [], colUsn := 0, colMod := 0 }

/-- A well-formed uploaded archive containing `src0` and one media file. -/
def srcArchive : ApkgArchive :=
  { bytes := [0x50, 0x4B, 3, 4, 9, 9, 9, 9], zipOk := true,
    files := ["collection.anki21", "media", "0"],
    mediaJson := some [("0", "img.jpg")], sourceDb := src0 }

/-- A one-byte upload: trivially small, no zip magic, rejected by the zip
layer. -/
def badArchive : ApkgArchive :=
  { bytes := [0], zipOk := false, files := [], mediaJson := none, sourceDb := src0 }

/-- A student who has synced (collection `tgt0`). -/
def stuA : Student :=
  { email := "a-example", hasCollection := true, collection := tgt0, mergeRaises := false }

/-- A second synced student. -/
def stuB : Student :=
  { email := "b-example", hasCollection := true, collection := tgtB, mergeRaises := false }

/-- A student who has never synced. -/
def stuN : Student :=
  { email := "n-example", hasCollection := false, collection := tgt0, mergeRaises := false }

/-! ## C1: rollback on failure -/

/-- Sanity link: the failure-free transactional run commits exactly the
plain merge result. -/
theorem importCollectionDataTx_none (nowDeckMs nowColMs : Int) (source target : Collection) :
    importCollectionDataTx none nowDeckMs nowColMs source target
      = ((importCollectionData nowDeckMs nowColMs source target).1,
         Except.ok (importCollectionData nowDeckMs nowColMs source target).2) := rfl

/-- C1: if `_import_collection_data` raises at any of its seven sub-phases
(count query, max-id queries, notetype merge, deck merge, note merge, card
merge, usn reset), the raised `MergeError` propagates and the target
collection database is observed exactly as it was before the call: the
transaction is committed only once, after all sub-phases, and never on a
failure path. -/
theorem mergeTx_failure_leaves_target_unchanged (i : Nat) (hi : i < 7)
    (nowDeckMs nowColMs : Int) (source target : Collection) :
    (importCollectionDataTx (some i) nowDeckMs nowColMs source target).2
        = Except.error "MergeError" ∧
    (importCollectionDataTx (some i) nowDeckMs nowColMs source target).1 = target := by
  interval_cases i <;> exact ⟨rfl, rfl⟩

/-- Witness for C1: a concrete failure during the card sub-phase leaves the
concrete target `tgtB` byte-identical. -/
theorem mergeTx_failure_witness :
    (importCollectionDataTx (some 5) 1000 2000 src0 tgtB).2 = Except.error "MergeError" ∧
    (importCollectionDataTx (some 5) 1000 2000 src0 tgtB).1 = tgtB :=
  mergeTx_failure_leaves_target_unchanged 5 (by norm_num) 1000 2000 src0 tgtB

/-! ## Shape of the note and card imports -/

/-- `sweepNote` only touches `usn`. -/
theorem sweepNote_guid (n : NoteRow) : (sweepNote n).guid = n.guid := by
  unfold sweepNote; split <;> rfl

/-- `sweepNote` only touches `usn`. -/
theorem sweepNote_id (n : NoteRow) : (sweepNote n).id = n.id := by
  unfold sweepNote; split <;> rfl

/-- `sweepNote` only touches `usn`. -/
theorem sweepNote_mid (n : NoteRow) : (sweepNote n).mid = n.mid := by
  unfold sweepNote; split <;> rfl

/-- The swept usn is always negative. -/
theorem sweepNote_usn_neg (n : NoteRow) : (sweepNote n).usn < 0 := by
  unfold sweepNote; split
  · norm_num
  · omega

/-- The swept usn is always negative. -/
theorem sweepCard_usn_neg (c : CardRow) : (sweepCard c).usn < 0 := by
  unfold sweepCard; split
  · norm_num
  · omega

/-- On rows with `usn ≥ -1` the sweep lands exactly on the sentinel. -/
theorem sweepNote_usn_sentinel (n : NoteRow) (h : -1 ≤ n.usn) : (sweepNote n).usn = -1 := by
  unfold sweepNote; split
  · rfl
  · omega

/-- `sweepCard` only touches `usn`. -/
theorem sweepCard_nid (c : CardRow) : (sweepCard c).nid = c.nid := by
  unfold sweepCard; split <;> rfl

/-- `sweepCard` only touches `usn`. -/
theorem sweepCard_did (c : CardRow) : (sweepCard c).did = c.did := by
  unfold sweepCard; split <;> rfl

/-- `sweepCard` only touches `usn`. -/
theorem sweepCard_id (c : CardRow) : (sweepCard c).id = c.id := by
  unfold sweepCard; split <;> rfl

/-- `sweepCard` only touches `usn`. -/
theorem sweepCard_ord (c : CardRow) : (sweepCard c).ord = c.ord := by
  unfold sweepCard; split <;> rfl

/-- On rows with `usn ≥ -1` the sweep lands exactly on the sentinel. -/
theorem sweepCard_usn_sentinel (c : CardRow) (h : -1 ≤ c.usn) : (sweepCard c).usn = -1 := by
  unfold sweepCard; split
  · rfl
  · omega

/-- The note import only appends, and every appended note is a source note
with the offset id, the remapped notetype id and the sentinel usn. -/
theorem importNotesGo_shape (off : Int) (mmap : List (Int × Int)) (src : List NoteRow) :
    ∀ tgt acc, ∃ ins,
      (importNotesGo off mmap src tgt acc).1 = tgt ++ ins ∧
      ∀ n ∈ ins, ∃ sn ∈ src,
        n = { sn with id := sn.id + off + 1,
                      mid := (mget mmap sn.mid).getD sn.mid, usn := -1 } := by
  induction src with
  | nil =>
    intro tgt acc
    exact ⟨[], by simp [importNotesGo], by simp⟩
  | cons sn rest ih =>
    intro tgt acc
    cases h : tgt.find? (fun n => n.guid == sn.guid) with
    | some ex =>
      obtain ⟨ins, h1, h2⟩ := ih tgt (mput (mput acc sn.id (sn.id + off + 1)) sn.id ex.id)
      refine ⟨ins, ?_, ?_⟩
      · simpa [importNotesGo, h] using h1
      · intro n hn
        obtain ⟨sn', hmem, heq⟩ := h2 n hn
        exact ⟨sn', List.mem_cons_of_mem _ hmem, heq⟩
    | none =>
      obtain ⟨ins, h1, h2⟩ :=
        ih (tgt ++ [{ sn with id := sn.id + off + 1,
                              mid := (mget mmap sn.mid).getD sn.mid, usn := -1 }])
           (mput acc sn.id (sn.id + off + 1))
      refine ⟨{ sn with id := sn.id + off + 1,
                        mid := (mget mmap sn.mid).getD sn.mid, usn := -1 } :: ins, ?_, ?_⟩
      · simpa [importNotesGo, h] using h1
      · intro n hn
        rcases List.mem_cons.mp hn with h' | h'
        · exact ⟨sn, List.mem_cons_self sn rest, h'⟩
        · obtain ⟨sn', hmem, heq⟩ := h2 n h'
          exact ⟨sn', List.mem_cons_of_mem _ hmem, heq⟩

/-- The card import only appends, counts exactly the appended cards, and
every appended card is a source card with the offset id, remapped note and
deck ids and the sentinel usn. -/
theorem importCardsGo_shape (off : Int) (nmap dmap : List (Int × Int)) (src : List CardRow) :
    ∀ tgt cnt, ∃ ins,
      (importCardsGo off nmap dmap src tgt cnt).1 = tgt ++ ins ∧
      (importCardsGo off nmap dmap src tgt cnt).2 = cnt + ins.length ∧
      ∀ c ∈ ins, ∃ sc ∈ src,
        c = { sc with id := sc.id + off + 1,
                      nid := (mget nmap sc.nid).getD sc.nid,
                      did := (mget dmap sc.did).getD sc.did, usn := -1 } := by
  induction src with
  | nil =>
    intro tgt cnt
    exact ⟨[], by simp [importCardsGo], by simp [importCardsGo], by simp⟩
  | cons sc rest ih =>
    intro tgt cnt
    cases h : tgt.find? (fun tc =>
        tc.nid == (mget nmap sc.nid).getD sc.nid && tc.ord == sc.ord) with
    | some ex =>
      obtain ⟨ins, h1, h2, h3⟩ := ih tgt cnt
      refine ⟨ins, ?_, ?_, ?_⟩
      · simpa [importCardsGo, h] using h1
      · simpa [importCardsGo, h] using h2
      · intro c hc
        obtain ⟨sc', hmem, heq⟩ := h3 c hc
        exact ⟨sc', List.mem_cons_of_mem _ hmem, heq⟩
    | none =>
      obtain ⟨ins, h1, h2, h3⟩ :=
        ih (tgt ++ [{ sc with id := sc.id + off + 1,
                              nid := (mget nmap sc.nid).getD sc.nid,
                              did := (mget dmap sc.did).getD sc.did, usn := -1 }]) (cnt + 1)
      refine ⟨{ sc with id := sc.id + off + 1,
                        nid := (mget nmap sc.nid).getD sc.nid,
                        did := (mget dmap sc.did).getD sc.did, usn := -1 } :: ins, ?_, ?_, ?_⟩
      · simpa [importCardsGo, h] using h1
      · simp only [importCardsGo, h]
        rw [h2, List.length_cons]
        omega
      · intro c hc
        rcases List.mem_cons.mp hc with h' | h'
        · exact ⟨sc, List.mem_cons_self sc rest, h'⟩
        · obtain ⟨sc', hmem, heq⟩ := h3 c h'
          exact ⟨sc', List.mem_cons_of_mem _ hmem, heq⟩

/-! ## Projections of the merge result -/

/-- The merged note table is the note import over the start-of-merge offset,
swept. -/
theorem importCollectionData_notes (nowDeckMs nowColMs : Int) (source target : Collection) :
    (importCollectionData nowDeckMs nowColMs source target).1.notes
      = (importNotesGo (pyOr0 (listMax? (target.notes.map (fun n => n.id))))
          (importNotetypes source.models target.models).2 source.notes target.notes []).1.map
          sweepNote := rfl

/-- The merged card table is the card import over the start-of-merge offset,
swept. -/
theorem importCollectionData_cards (nowDeckMs nowColMs : Int) (source target : Collection) :
    (importCollectionData nowDeckMs nowColMs source target).1.cards
      = (importCardsGo (pyOr0 (listMax? (target.cards.map (fun c => c.id))))
          (importNotesGo (pyOr0 (listMax? (target.notes.map (fun n => n.id))))
            (importNotetypes source.models target.models).2 source.notes target.notes []).2
          (importDecks nowDeckMs source.decks target.decks).2 source.cards target.cards 0).1.map
          sweepCard := rfl

/-! ## C2: sync-trigger sentinel after a merge -/

/-- C2: after a merge commits, every note and card in the target that the
merge inserted or that was already there (in particular every
matched-and-updated row) has `usn = -1`, provided the target obeyed the
usn convention `usn ≥ -1` beforehand; the collection row ends with
`usn = -1` and its modification timestamp set to the commit wall clock. -/
theorem merge_sets_usn_sentinel (nowDeckMs nowColMs : Int) (source target : Collection)
    (hn : ∀ n ∈ target.notes, -1 ≤ n.usn) (hc : ∀ c ∈ target.cards, -1 ≤ c.usn) :
    (∀ n ∈ (importCollectionData nowDeckMs nowColMs source target).1.notes, n.usn = -1) ∧
    (∀ c ∈ (importCollectionData nowDeckMs nowColMs source target).1.cards, c.usn = -1) ∧
    (importCollectionData nowDeckMs nowColMs source target).1.colUsn = -1 ∧
    (importCollectionData nowDeckMs nowColMs source target).1.colMod = nowColMs := by
  refine ⟨?_, ?_, rfl, rfl⟩
  · intro n hmem
    rw [importCollectionData_notes] at hmem
    obtain ⟨ins, h1, h2⟩ := importNotesGo_shape
      (pyOr0 (listMax? (target.notes.map (fun n => n.id))))
      (importNotetypes source.models target.models).2 source.notes target.notes []
    rw [h1] at hmem
    obtain ⟨m, hm, rfl⟩ := List.mem_map.mp hmem
    rcases List.mem_append.mp hm with hmm | hmm
    · exact sweepNote_usn_sentinel m (hn m hmm)
    · obtain ⟨sn, _, rfl⟩ := h2 m hmm
      exact sweepNote_usn_sentinel _ (le_refl _)
  · intro c hmem
    rw [importCollectionData_cards] at hmem
    obtain ⟨ins, h1, _, h3⟩ := importCardsGo_shape
      (pyOr0 (listMax? (target.cards.map (fun c => c.id))))
      (importNotesGo (pyOr0 (listMax? (target.notes.map (fun n => n.id))))
        (importNotetypes source.models target.models).2 source.notes target.notes []).2
      (importDecks nowDeckMs source.decks target.decks).2 source.cards target.cards 0
    rw [h1] at hmem
    obtain ⟨m, hm, rfl⟩ := List.mem_map.mp hmem
    rcases List.mem_append.mp hm with hmm | hmm
    · exact sweepCard_usn_sentinel m (hc m hmm)
    · obtain ⟨sc, _, rfl⟩ := h3 m hmm
      exact sweepCard_usn_sentinel _ (le_refl _)

/-- Witness for C2 on concrete data: the concrete merge of `src0` into
`tgtB` ends with collection usn `-1`, commit timestamp `9`, and the
pre-existing positive-usn note swept to the sentinel. -/
theorem merge_sets_usn_sentinel_witness :
    (importCollectionData 8 9 src0 tgtB).1.colUsn = -1 ∧
    (importCollectionData 8 9 src0 tgtB).1.colMod = 9 ∧
    (sweepNote noteT).usn = -1 :=
  ⟨(merge_sets_usn_sentinel 8 9 src0 tgtB (by decide) (by decide)).2.2.1,
   (merge_sets_usn_sentinel 8 9 src0 tgtB (by decide) (by decide)).2.2.2,
   (merge_sets_usn_sentinel 8 9 src0 tgtB (by decide) (by decide)).1 (sweepNote noteT)
     (by decide)⟩

/-! ## C10: the sweep is a whole-table frame effect -/

/-- C10: every successful merge — with any source, including one with zero
notes and zero cards — applies the usn sweep to every row of the target
note and card tables, not only to rows the merge inserted or matched: every
pre-existing row appears swept (`usn ≥ 0` forced to `-1`) in the result,
every resulting row has a negative usn, and the collection row usn and
modification timestamp are reset unconditionally. -/
theorem merge_usn_sweep_frame (nowDeckMs nowColMs : Int) (source target : Collection) :
    (∀ n ∈ target.notes,
        sweepNote n ∈ (importCollectionData nowDeckMs nowColMs source target).1.notes) ∧
    (∀ c ∈ target.cards,
        sweepCard c ∈ (importCollectionData nowDeckMs nowColMs source target).1.cards) ∧
    (∀ n ∈ (importCollectionData nowDeckMs nowColMs source target).1.notes, n.usn < 0) ∧
    (∀ c ∈ (importCollectionData nowDeckMs nowColMs source target).1.cards, c.usn < 0) ∧
    (importCollectionData nowDeckMs nowColMs source target).1.colUsn = -1 ∧
    (importCollectionData nowDeckMs nowColMs source target).1.colMod = nowColMs := by
  obtain ⟨ins, h1, h2⟩ := importNotesGo_shape
    (pyOr0 (listMax? (target.notes.map (fun n => n.id))))
    (importNotetypes source.models target.models).2 source.notes target.notes []
  obtain ⟨insC, hc1, _, hc3⟩ := importCardsGo_shape
    (pyOr0 (listMax? (target.cards.map (fun c => c.id))))
    (importNotesGo (pyOr0 (listMax? (target.notes.map (fun n => n.id))))
      (importNotetypes source.models target.models).2 source.notes target.notes []).2
    (importDecks nowDeckMs source.decks target.decks).2 source.cards target.cards 0
  refine ⟨?_, ?_, ?_, ?_, rfl, rfl⟩
  · intro n hmem
    rw [importCollectionData_notes, h1]
    exact List.mem_map_of_mem _ (List.mem_append_left _ hmem)
  · intro c hmem
    rw [importCollectionData_cards, hc1]
    exact List.mem_map_of_mem _ (List.mem_append_left _ hmem)
  · intro n hmem
    rw [importCollectionData_notes] at hmem
    obtain ⟨m, _, rfl⟩ := List.mem_map.mp hmem
    exact sweepNote_usn_neg m
  · intro c hmem
    rw [importCollectionData_cards] at hmem
    obtain ⟨m, _, rfl⟩ := List.mem_map.mp hmem
    exact sweepCard_usn_neg m

/-- Witness for C10: merging the empty source into `tgtB` still sweeps the
entirely unrelated note (usn 3) and card (usn 2) to the sentinel and resets
the collection row. -/
theorem merge_usn_sweep_frame_witness :
    sweepNote noteT ∈ (importCollectionData 0 0 srcEmpty tgtB).1.notes ∧
    sweepCard cardT ∈ (importCollectionData 0 0 srcEmpty tgtB).1.cards ∧
    (importCollectionData 0 0 srcEmpty tgtB).1.colUsn = -1 :=
  ⟨(merge_usn_sweep_frame 0 0 srcEmpty tgtB).1 noteT (by decide),
   (merge_usn_sweep_frame 0 0 srcEmpty tgtB).2.1 cardT (by decide),
   (merge_usn_sweep_frame 0 0 srcEmpty tgtB).2.2.2.2.1⟩

/-! ## C9: the revlog reader never propagates read failures -/

/-- A collection view on which every read raises. -/
def dbErr : AnkiDbView :=
  { connect := Except.error "database is locked"
    decksQuery := Except.error "database is locked"
    revlog := Except.error "database is locked"
    cardDid := Except.error "database is locked" }

/-- LMS-side state with an existing collection file. -/
def lmsOn : LmsView := { deckTitles := ["Demo"], lastSynced := 0, collectionExists := true }

/-- LMS-side state whose collection file is missing. -/
def lmsOff : LmsView := { deckTitles := ["Demo"], lastSynced := 0, collectionExists := false }

/-- C9: `sync_revlog` returns 0 new entries without raising on any read
failure: when the collection file is missing it returns 0 before opening
anything, and when any step of the read body raises (connect, deck query or
JSON parse, revlog query, card query) the exception is swallowed and 0 is
returned; no exception propagates to the caller. -/
theorem syncRevlog_swallows_read_failures (db : AnkiDbView) (lms : LmsView) :
    (lms.collectionExists = false → syncRevlog db lms = 0) ∧
    (∀ msg, syncRevlogInner db lms = Except.error msg → syncRevlog db lms = 0) := by
  constructor
  · intro h
    simp [syncRevlog, h]
  · intro msg h
    unfold syncRevlog
    split
    · rfl
    · rw [h]

/-- Witness for C9: a missing collection file and a locked database both
yield 0. -/
theorem syncRevlog_swallows_read_failures_witness :
    syncRevlog dbErr lmsOff = 0 ∧ syncRevlog dbErr lmsOn = 0 :=
  ⟨(syncRevlog_swallows_read_failures dbErr lmsOff).1 rfl,
   (syncRevlog_swallows_read_failures dbErr lmsOn).2 "database is locked" rfl⟩

/-! ## C8: no size or magic-byte pre-validation in the Package Reader -/

/-- Counterexample for C8 as stated: a one-byte upload — trivially small and
without the zip magic — still reaches the extraction attempt
(`zipfile.ZipFile` + `extractall`); the code performs no size or magic-byte
validation before attempting extraction. -/
theorem packageReader_prevalidation_cex :
    badArchive.bytes.length = 1 ∧ zipMagicOk badArchive.bytes = false ∧
    Ev.extractArchive ∈ (injectFromApkg 0 0 badArchive stuA).1 := by
  decide

/-- C8 amended: the Package Reader performs no explicit size or magic-byte
validation; it detects an invalid archive only by attempting to open and
extract it with the zip library, and when the zip layer rejects the bytes it
returns the invalid-package failure having done nothing beyond the
extraction attempt (no database located, no manifest parsed, no media
copied, no import run). -/
theorem packageReader_invalid_zip_behaviour (nowDeckMs nowColMs : Int)
    (a : ApkgArchive) (s : Student) (h : a.zipOk = false) :
    injectFromApkg nowDeckMs nowColMs a s
      = ([Ev.extractArchive], (false, "Invalid .apkg file (not a valid zip)")) := by
  simp [injectFromApkg, h]

/-- Witness for amended C8 at the concrete one-byte archive. -/
theorem packageReader_invalid_zip_behaviour_witness :
    injectFromApkg 0 0 badArchive stuA
      = ([Ev.extractArchive], (false, "Invalid .apkg file (not a valid zip)")) :=
  packageReader_invalid_zip_behaviour 0 0 badArchive stuA rfl

/-! ## Ordering of events inside one injection -/

/-- If no event of the right part satisfies `p` and no event of the left
part satisfies `q`, then in the concatenation every `p` event is strictly
before every `q` event. -/
theorem evBefore_append (l1 l2 : List Ev) (p q : Ev → Bool)
    (h1 : ∀ e ∈ l2, p e = false) (h2 : ∀ e ∈ l1, q e = false) :
    EvBefore (l1 ++ l2) p q := by
  unfold EvBefore
  intro i j e1 e2 hi hp hj hq
  have hiL : i < l1.length := by
    by_contra hge
    push_neg at hge
    rw [List.getElem?_append_right hge] at hi
    obtain ⟨hlt, rfl⟩ := List.getElem?_eq_some.mp hi
    have := h1 _ (List.getElem_mem hlt)
    rw [hp] at this
    exact Bool.true_eq_false.mp this
  have hjL : l1.length ≤ j := by
    by_contra hlt
    push_neg at hlt
    rw [List.getElem?_append_left hlt] at hj
    obtain ⟨hlt2, rfl⟩ := List.getElem?_eq_some.mp hj
    have := h2 _ (List.getElem_mem hlt2)
    rw [hq] at this
    exact Bool.true_eq_false.mp this
  omega

/-- A trace with no `q` event satisfies any before-ordering towards `q`. -/
theorem evBefore_of_no_second (t : List Ev) (p q : Ev → Bool)
    (h : ∀ e ∈ t, q e = false) : EvBefore t p q := by
  unfold EvBefore
  intro i j e1 e2 _ _ hj hq
  obtain ⟨hlt, rfl⟩ := List.getElem?_eq_some.mp hj
  have := h _ (List.getElem_mem hlt)
  rw [hq] at this
  exact absurd this (by simp)

/-- The trace of one `_inject_from_apkg` run is either the bare extraction
attempt (failure before the media loop) or the Package Reader prefix
followed by the media copies followed by the database import (with the
media-database update after it on success). -/
theorem injectFromApkg_trace (nowDeckMs nowColMs : Int) (a : ApkgArchive) (s : Student) :
    (injectFromApkg nowDeckMs nowColMs a s).1 = [Ev.extractArchive] ∨
    ∃ (dbName : String) (copies : List (String × String)) (tail : List Ev),
      (injectFromApkg nowDeckMs nowColMs a s).1
        = ([Ev.extractArchive, Ev.locateDb dbName, Ev.parseManifest, Ev.ensureMediaDir]
            ++ copies.map (fun p : String × String => Ev.copyMedia p.2)) ++ tail ∧
      (tail = [Ev.dbImport] ∨ tail = [Ev.dbImport, Ev.updateMediaDb]) := by
  unfold injectFromApkg
  by_cases hz : a.zipOk = false
  · rw [if_pos hz]
    exact Or.inl rfl
  · rw [if_neg hz]
    cases hf : List.find? (fun n => a.files.contains n) ["collection.anki21", "collection.anki2"] with
    | none =>
      exact Or.inl rfl
    | some dbName =>
      by_cases hm : s.mergeRaises
      · refine Or.inr ⟨dbName, (a.mediaJson.getD []).filter (fun p => a.files.contains p.1),
          [Ev.dbImport], ?_, Or.inl rfl⟩
        simp [hm]
      · refine Or.inr ⟨dbName, (a.mediaJson.getD []).filter (fun p => a.files.contains p.1),
          [Ev.dbImport, Ev.updateMediaDb], ?_, Or.inr rfl⟩
        simp [hm]

/-- Counterexample for C6 as stated: on a concrete valid archive with one
media file, the media copy occurs in the trace before the database merge
event — `_inject_from_apkg` copies media first and merges afterwards. -/
theorem injection_media_copied_before_merge_cex :
    mediaCopiedBeforeImport (injectFromApkg 0 0 srcArchive stuA).1 = true := by
  decide

/-- C6 amended: within one injection the fixed order is Package Reader
(extract, locate database, parse manifest) first, then Media Synchronizer
(copy media payloads), then Merge Engine (database import): every Package
Reader event precedes every media copy, and every media copy precedes the
database merge event. (The claim as stated — merge before media — is
refuted by the counterexample.) -/
theorem injection_step_order (nowDeckMs nowColMs : Int) (a : ApkgArchive) (s : Student) :
    EvBefore (injectFromApkg nowDeckMs nowColMs a s).1 isReaderEv isCopy ∧
    EvBefore (injectFromApkg nowDeckMs nowColMs a s).1 isCopy isImportEv := by
  rcases injectFromApkg_trace nowDeckMs nowColMs a s with h | ⟨dbName, copies, tail, h, htail⟩
  · rw [h]
    constructor
    · refine evBefore_of_no_second _ _ _ ?_
      intro e he
      simp only [List.mem_singleton] at he
      subst he; rfl
    · refine evBefore_of_no_second _ _ _ ?_
      intro e he
      simp only [List.mem_singleton] at he
      subst he; rfl
  · have htailCopy : ∀ e ∈ tail, isCopy e = false := by
      rcases htail with h' | h' <;> subst h' <;> intro e he
      · simp only [List.mem_singleton] at he; subst he; rfl
      · rcases List.mem_cons.mp he with rfl | he'
        · rfl
        · simp only [List.mem_singleton] at he'; subst he'; rfl
    rw [h]
    constructor
    · rw [List.append_assoc]
      apply evBefore_append
      · intro e he
        rcases List.mem_append.mp he with h' | h'
        · obtain ⟨p, _, rfl⟩ := List.mem_map.mp h'
          rfl
        · rcases htail with ht | ht <;> subst ht
          · simp only [List.mem_singleton] at h'; subst h'; rfl
          · rcases List.mem_cons.mp h' with rfl | h3
            · rfl
            · simp only [List.mem_singleton] at h3; subst h3; rfl
      · intro e he
        rcases List.mem_cons.mp he with rfl | he1
        · rfl
        rcases List.mem_cons.mp he1 with rfl | he2
        · rfl
        rcases List.mem_cons.mp he2 with rfl | he3
        · rfl
        simp only [List.mem_singleton] at he3
        subst he3; rfl
    · apply evBefore_append
      · exact htailCopy
      · intro e he
        rcases List.mem_append.mp he with h' | h'
        · rcases List.mem_cons.mp h' with rfl | he1
          · rfl
          rcases List.mem_cons.mp he1 with rfl | he2
          · rfl
          rcases List.mem_cons.mp he2 with rfl | he3
          · rfl
          simp only [List.mem_singleton] at he3
          subst he3; rfl
        · obtain ⟨p, _, rfl⟩ := List.mem_map.mp h'
          rfl

/-- Witness for amended C6 at concrete indices of the concrete trace: the
media copy sits at index 4, the merge at index 5, and the theorem gives
4 < 5. -/
theorem injection_step_order_witness :
    ((injectFromApkg 0 0 srcArchive stuA).1)[4]? = some (Ev.copyMedia "img.jpg") ∧
    ((injectFromApkg 0 0 srcArchive stuA).1)[5]? = some Ev.dbImport ∧ 4 < 5 :=
  ⟨rfl, rfl,
   (injection_step_order 0 0 srcArchive stuA).2 4 5 (Ev.copyMedia "img.jpg") Ev.dbImport
     rfl rfl rfl rfl⟩

/-! ## C7: batch injection -/

/-- One `inject_apkg` run attempts archive extraction exactly once when the
student has a collection, and not at all otherwise. -/
theorem injectApkg_extract_count (nowDeckMs nowColMs : Int) (a : ApkgArchive) (s : Student) :
    countExtract (injectApkg nowDeckMs nowColMs a s).1
      = if s.hasCollection then 1 else 0 := by
  unfold injectApkg
  by_cases h : s.hasCollection = false
  · rw [if_pos h, h]
    rfl
  · have hs : s.hasCollection = true := by simpa using h
    rw [if_neg h, hs, if_pos rfl]
    rcases injectFromApkg_trace nowDeckMs nowColMs a s with ht | ⟨dbName, copies, tail, ht, htail⟩
    · rw [ht]
      rfl
    · rw [ht]
      unfold countExtract
      rw [List.count_append, List.count_append]
      have h1 : List.count Ev.extractArchive
          [Ev.extractArchive, Ev.locateDb dbName, Ev.parseManifest, Ev.ensureMediaDir] = 1 := by
        simp [List.count_cons]
      have h2 : List.count Ev.extractArchive
          (copies.map fun p => Ev.copyMedia p.2) = 0 := by
        rw [List.count_eq_zero]
        intro hmem
        obtain ⟨p, _, hp⟩ := List.mem_map.mp hmem
        exact Ev.noConfusion hp
      have h3 : List.count Ev.extractArchive tail = 0 := by
        rcases htail with ht' | ht' <;> subst ht' <;> rfl
      rw [h1, h2, h3]

/-- The batch loop accumulates one extraction attempt per student that has
a collection. -/
theorem injectDeckToClassGo_count (nowDeckMs nowColMs : Int) (a : ApkgArchive) :
    ∀ (students : List Student) (evs : List Ev) (res : List (String × (Bool × String))),
      countExtract (injectDeckToClassGo nowDeckMs nowColMs a students evs res).1
        = countExtract evs + (students.filter (fun s => s.hasCollection)).length := by
  intro students
  induction students with
  | nil =>
    intro evs res
    simp [injectDeckToClassGo]
  | cons s rest ih =>
    intro evs res
    rw [show injectDeckToClassGo nowDeckMs nowColMs a (s :: rest) evs res
          = injectDeckToClassGo nowDeckMs nowColMs a rest
              (evs ++ (injectApkg nowDeckMs nowColMs a s).1)
              (sput res s.email (injectApkg nowDeckMs nowColMs a s).2) from rfl]
    rw [ih]
    unfold countExtract
    rw [List.count_append]
    have := injectApkg_extract_count nowDeckMs nowColMs a s
    unfold countExtract at this
    rw [this]
    by_cases hs : s.hasCollection
    · simp [hs, List.filter_cons]
      omega
    · simp [hs, List.filter_cons]

/-- The batch loop produces exactly one result entry per student, appended
in order, as long as no processed email collides with an existing key and
the batch emails are distinct. -/
theorem injectDeckToClassGo_results (nowDeckMs nowColMs : Int) (a : ApkgArchive) :
    ∀ (students : List Student) (evs : List Ev) (res : List (String × (Bool × String))),
      (∀ s ∈ students, res.any (fun p => p.1 == s.email) = false) →
      (students.map (fun s => s.email)).Nodup →
      (injectDeckToClassGo nowDeckMs nowColMs a students evs res).2
        = res ++ students.map (fun s => (s.email, (injectApkg nowDeckMs nowColMs a s).2)) := by
  intro students
  induction students with
  | nil =>
    intro evs res _ _
    simp [injectDeckToClassGo]
  | cons s rest ih =>
    intro evs res hfresh hnodup
    rw [List.map_cons] at hnodup
    obtain ⟨hnotmem, hnodup2⟩ := List.nodup_cons.mp hnodup
    rw [show injectDeckToClassGo nowDeckMs nowColMs a (s :: rest) evs res
          = injectDeckToClassGo nowDeckMs nowColMs a rest
              (evs ++ (injectApkg nowDeckMs nowColMs a s).1)
              (sput res s.email (injectApkg nowDeckMs nowColMs a s).2) from rfl]
    have hput : sput res s.email (injectApkg nowDeckMs nowColMs a s).2
        = res ++ [(s.email, (injectApkg nowDeckMs nowColMs a s).2)] := by
      unfold sput
      rw [if_neg]
      rw [hfresh s (List.mem_cons_self s rest)]
      simp
    rw [hput]
    rw [ih _ _ ?fresh hnodup2]
    · rw [List.append_assoc]
      rfl
    case fresh =>
      intro s' hs'
      rw [List.any_append]
      rw [hfresh s' (List.mem_cons_of_mem _ hs')]
      simp only [Bool.false_or, List.any_cons, List.any_nil, Bool.or_false]
      have hne : s.email ≠ s'.email := by
        intro hcontra
        exact hnotmem (hcontra ▸ List.mem_map_of_mem (fun t => t.email) hs')
      simp [hne]

/-- Counterexample for C7 as stated: injecting one deck to two synced
students performs the archive extraction twice — once per student — not
exactly once per batch call. -/
theorem batch_single_extraction_cex :
    countExtract (injectDeckToClass 0 0 srcArchive [stuA, stuB]).1 = 2 ∧
    countExtract (injectDeckToClass 0 0 srcArchive [stuA, stuB]).1 ≠ 1 := by
  decide

/-- C7 amended: the Package Reader (extraction and manifest parse) runs once
per student that has a collection — the batch re-extracts the archive for
every student rather than once per call — while the Merge Engine and Media
Synchronizer also run once per student; a failure for one student never
aborts the remaining students: the batch is a total function returning
exactly one `(success, message)` outcome per student, in order, with an
entry retrievable for every student. -/
theorem batch_per_student_behaviour (nowDeckMs nowColMs : Int) (a : ApkgArchive)
    (students : List Student) (hnodup : (students.map (fun s => s.email)).Nodup) :
    countExtract (injectDeckToClass nowDeckMs nowColMs a students).1
        = (students.filter (fun s => s.hasCollection)).length ∧
    (injectDeckToClass nowDeckMs nowColMs a students).2
        = students.map (fun s => (s.email, (injectApkg nowDeckMs nowColMs a s).2)) ∧
    (∀ s ∈ students, ∃ v,
        sget (injectDeckToClass nowDeckMs nowColMs a students).2 s.email = some v) := by
  refine ⟨?_, ?_, ?_⟩
  · have := injectDeckToClassGo_count nowDeckMs nowColMs a students [] []
    simpa [injectDeckToClass, countExtract] using this
  · have := injectDeckToClassGo_results nowDeckMs nowColMs a students [] []
      (by intro s _; rfl) hnodup
    simpa [injectDeckToClass] using this
  · intro s hs
    have hres := injectDeckToClassGo_results nowDeckMs nowColMs a students [] []
      (by intro s _; rfl) hnodup
    have hres' : (injectDeckToClass nowDeckMs nowColMs a students).2
        = students.map (fun s => (s.email, (injectApkg nowDeckMs nowColMs a s).2)) := by
      simpa [injectDeckToClass] using hres
    rw [hres']
    have hex : ∃ x ∈ students.map
        (fun s => (s.email, (injectApkg nowDeckMs nowColMs a s).2)),
        (fun p => p.1 == s.email) x := by
      refine ⟨(s.email, (injectApkg nowDeckMs nowColMs a s).2), ?_, ?_⟩
      · exact List.mem_map_of_mem _ hs
      · simp
    have := List.find?_isSome.mpr hex
    unfold sget
    cases hfind : List.find? (fun p => p.1 == s.email)
        (students.map fun s => (s.email, (injectApkg nowDeckMs nowColMs a s).2)) with
    | none => rw [hfind] at this; simp at this
    | some v => exact ⟨v.2, rfl⟩

/-- Witness for amended C7: a concrete batch of three students — the middle
one never synced — yields two extractions, three in-order outcomes, and a
retrievable outcome for the never-synced student. -/
theorem batch_per_student_behaviour_witness :
    countExtract (injectDeckToClass 0 0 srcArchive [stuA, stuN, stuB]).1 = 2 ∧
    (injectDeckToClass 0 0 srcArchive [stuA, stuN, stuB]).2
      = [(stuA.email, (injectApkg 0 0 srcArchive stuA).2),
         (stuN.email, (injectApkg 0 0 srcArchive stuN).2),
         (stuB.email, (injectApkg 0 0 srcArchive stuB).2)] ∧
    ∃ v, sget (injectDeckToClass 0 0 srcArchive [stuA, stuN, stuB]).2 stuN.email = some v := by
  refine ⟨?_, ?_, ?_⟩
  · rw [(batch_per_student_behaviour 0 0 srcArchive [stuA, stuN, stuB] (by decide)).1]
    decide
  · exact (batch_per_student_behaviour 0 0 srcArchive [stuA, stuN, stuB] (by decide)).2.1
  · exact (batch_per_student_behaviour 0 0 srcArchive [stuA, stuN, stuB] (by decide)).2.2
      stuN (by decide)

/-! ## C5: id offsets -/

/-- The seed of a `foldl max` is a lower bound of its result. -/
theorem foldl_max_seed_le (ys : List Int) : ∀ b : Int, b ≤ ys.foldl max b := by
  induction ys with
  | nil => intro b; exact le_refl b
  | cons z zs ih =>
    intro b
    exact le_trans (le_max_left b z) (ih (max b z))

/-- Every member of a list is bounded by a `foldl max` over it. -/
theorem mem_le_foldl_max (ys : List Int) : ∀ (b x : Int), x ∈ ys → x ≤ ys.foldl max b := by
  induction ys with
  | nil => intro b x hx; exact absurd hx (List.not_mem_nil x)
  | cons z zs ih =>
    intro b x hx
    rcases List.mem_cons.mp hx with rfl | hx'
    · exact le_trans (le_max_right b x) (foldl_max_seed_le zs (max b x))
    · exact ih (max b z) x hx'

/-- Every id of the table is bounded by the `MAX(id) or 0` the merge
computes. -/
theorem le_pyOr0_listMax (l : List Int) (x : Int) (hx : x ∈ l) :
    x ≤ pyOr0 (listMax? l) := by
  cases l with
  | nil => exact absurd hx (List.not_mem_nil x)
  | cons y ys =>
    rcases List.mem_cons.mp hx with rfl | hx'
    · exact foldl_max_seed_le ys x
    · exact mem_le_foldl_max ys y x hx'

/-- C5: the merge computes the note offset once, before the note loop, as
the target's `MAX(id)` as of merge start; the pre-existing rows stay as the
(swept) prefix of the result; every newly inserted note id equals
`source_id + (max + 1)` for a source note, and similarly for cards with the
card-table maximum; consequently (for non-negative source ids, as Anki ids
are epoch-millisecond timestamps) no newly inserted note or card id equals
any id already present in the target at merge start. -/
theorem merge_id_offset_remapping (nowDeckMs nowColMs : Int) (source target : Collection)
    (hsn : ∀ n ∈ source.notes, 0 ≤ n.id) (hsc : ∀ c ∈ source.cards, 0 ≤ c.id) :
    ((importCollectionData nowDeckMs nowColMs source target).1.notes.take target.notes.length
        = target.notes.map sweepNote) ∧
    (∀ n ∈ (importCollectionData nowDeckMs nowColMs source target).1.notes.drop
        target.notes.length,
      (∃ sn ∈ source.notes,
          n.id = sn.id + (pyOr0 (listMax? (target.notes.map (fun m => m.id))) + 1)) ∧
      ∀ m ∈ target.notes, m.id ≠ n.id) ∧
    ((importCollectionData nowDeckMs nowColMs source target).1.cards.take target.cards.length
        = target.cards.map sweepCard) ∧
    (∀ c ∈ (importCollectionData nowDeckMs nowColMs source target).1.cards.drop
        target.cards.length,
      (∃ sc ∈ source.cards,
          c.id = sc.id + (pyOr0 (listMax? (target.cards.map (fun d => d.id))) + 1)) ∧
      ∀ d ∈ target.cards, d.id ≠ c.id) := by
  obtain ⟨ins, h1, h2⟩ := importNotesGo_shape
    (pyOr0 (listMax? (target.notes.map (fun n => n.id))))
    (importNotetypes source.models target.models).2 source.notes target.notes []
  obtain ⟨insC, hc1, _, hc3⟩ := importCardsGo_shape
    (pyOr0 (listMax? (target.cards.map (fun c => c.id))))
    (importNotesGo (pyOr0 (listMax? (target.notes.map (fun n => n.id))))
      (importNotetypes source.models target.models).2 source.notes target.notes []).2
    (importDecks nowDeckMs source.decks target.decks).2 source.cards target.cards 0
  refine ⟨?_, ?_, ?_, ?_⟩
  · rw [importCollectionData_notes, h1, List.map_append]
    exact List.take_left' (by rw [List.length_map])
  · intro n hn
    rw [importCollectionData_notes, h1, List.map_append,
        List.drop_left' (by rw [List.length_map] : (target.notes.map sweepNote).length = target.notes.length)] at hn
    obtain ⟨m, hm, rfl⟩ := List.mem_map.mp hn
    obtain ⟨sn, hsn', rfl⟩ := h2 m hm
    rw [sweepNote_id]
    constructor
    · exact ⟨sn, hsn', by show sn.id + _ + 1 = _; ring⟩
    · intro m0 hm0
      have hb := le_pyOr0_listMax (target.notes.map (fun m => m.id)) m0.id
        (List.mem_map_of_mem _ hm0)
      have hz := hsn sn hsn'
      show m0.id ≠ sn.id + pyOr0 (listMax? (target.notes.map (fun m => m.id))) + 1
      omega
  · rw [importCollectionData_cards, hc1, List.map_append]
    exact List.take_left' (by rw [List.length_map])
  · intro c hc
    rw [importCollectionData_cards, hc1, List.map_append,
        List.drop_left' (by rw [List.length_map] : (target.cards.map sweepCard).length = target.cards.length)] at hc
    obtain ⟨m, hm, rfl⟩ := List.mem_map.mp hc
    obtain ⟨sc, hsc', rfl⟩ := hc3 m hm
    rw [sweepCard_id]
    constructor
    · exact ⟨sc, hsc', by show sc.id + _ + 1 = _; ring⟩
    · intro d0 hd0
      have hb := le_pyOr0_listMax (target.cards.map (fun d => d.id)) d0.id
        (List.mem_map_of_mem _ hd0)
      have hz := hsc sc hsc'
      show d0.id ≠ sc.id + pyOr0 (listMax? (target.cards.map (fun d => d.id))) + 1
      omega

/-- Witness for C5: merging `src0` into `tgtB` (max note id 50) keeps the
swept pre-existing note as the prefix and inserts the source note under id
`10 + (50 + 1) = 61`, which collides with no pre-existing id. -/
theorem merge_id_offset_remapping_witness :
    (importCollectionData 7 7 src0 tgtB).1.notes.take tgtB.notes.length
        = tgtB.notes.map sweepNote ∧
    noteT.id ≠ ({ noteS with id := 61, usn := -1 } : NoteRow).id := by
  have h := merge_id_offset_remapping 7 7 src0 tgtB (by decide) (by decide)
  have hmem : ({ noteS with id := 61, usn := -1 } : NoteRow)
      ∈ (importCollectionData 7 7 src0 tgtB).1.notes.drop tgtB.notes.length := by
    decide
  exact ⟨h.1, (h.2.1 _ hmem).2 noteT (by decide)⟩

/-! ## Dictionary lemmas -/

/-- Lookup in the empty remap dict. -/
theorem mget_nil (k : Int) : mget [] k = none := rfl

/-- Assigning a key makes it retrievable. -/
theorem mget_mput_self (m : List (Int × Int)) (k v : Int) :
    mget (mput m k v) k = some v := by
  simp [mget, mput]

/-- Assigning a different key does not change a lookup. -/
theorem mget_mput_ne (m : List (Int × Int)) (k' v k : Int) (h : k' ≠ k) :
    mget (mput m k' v) k = mget m k := by
  simp [mget, mput, List.find?_cons, h]

/-- Assignments never make an existing lookup undefined. -/
theorem mget_mput_isSome (m : List (Int × Int)) (k' v k : Int)
    (h : (mget m k).isSome) : (mget (mput m k' v) k).isSome := by
  by_cases he : k' = k
  · subst he
    rw [mget_mput_self]
    rfl
  · rw [mget_mput_ne _ _ _ _ he]
    exact h

/-- Dict assignment preserves every present key. -/
theorem dput_keys_mono {α : Type} (l : List (Int × α)) (k : Int) (v : α) (k0 : Int)
    (h : ∃ p ∈ l, p.1 = k0) : ∃ p ∈ dput l k v, p.1 = k0 := by
  obtain ⟨p, hp, hpk⟩ := h
  unfold dput
  split
  · refine ⟨if p.1 == k then (k, v) else p, List.mem_map_of_mem _ hp, ?_⟩
    by_cases he : p.1 = k
    · rw [if_pos (by simp [he])]
      omega
    · rw [if_neg (by simp [he])]
      exact hpk
  · exact ⟨p, List.mem_append_left _ hp, hpk⟩

/-- After a dict assignment the assigned key is present. -/
theorem dput_mem_key {α : Type} (l : List (Int × α)) (k : Int) (v : α) :
    ∃ p ∈ dput l k v, p.1 = k := by
  unfold dput
  split
  · next hany =>
    obtain ⟨p, hp, hpk⟩ := List.any_eq_true.mp hany
    have himg := List.mem_map_of_mem (fun q : Int × α => if q.1 == k then (k, v) else q) hp
    dsimp only at himg
    rw [if_pos hpk] at himg
    exact ⟨(k, v), himg, rfl⟩
  · exact ⟨(k, v), List.mem_append_right _ (List.mem_singleton.mpr rfl), rfl⟩

/-! ## Step characterizations of the notetype and deck merges -/

/-- One iteration of the notetype loop either reuses a nonzero matched
target key or inserts under a fresh key, in both cases assigning the source
id in the map. -/
theorem importNotetypesGo_cons (mid : Int) (m : ModelJson)
    (rest tgt : List (Int × ModelJson)) (mx : Int) (acc : List (Int × Int)) :
    (∃ eid, importNotetypesGo ((mid, m) :: rest) tgt mx acc
          = importNotetypesGo rest tgt mx (mput acc mid eid) ∧
        ∃ p ∈ tgt, p.1 = eid) ∨
    (∃ nid, importNotetypesGo ((mid, m) :: rest) tgt mx acc
          = importNotetypesGo rest (dput tgt nid { m with id := nid, usn := -1 }) nid
              (mput acc mid nid)) := by
  cases hf : tgt.find? (fun p => p.2.name == m.name) with
  | none =>
    refine Or.inr ⟨max mx mid + 1, ?_⟩
    simp only [importNotetypesGo, hf]
  | some p0 =>
    by_cases hz : p0.1 = 0
    · refine Or.inr ⟨max mx mid + 1, ?_⟩
      simp only [importNotetypesGo, hf]
      rw [if_pos (by simp [hz])]
    · refine Or.inl ⟨p0.1, ?_, p0, List.mem_of_find?_eq_some hf, rfl⟩
      simp only [importNotetypesGo, hf]
      rw [if_neg (by simp [hz])]

/-- One iteration of the deck loop either maps the default deck to itself,
reuses a nonzero matched target key (refreshing its usn in place), or
inserts under the next timestamp-derived key. -/
theorem importDecksGo_cons (did : Int) (d : DeckJson)
    (rest tgt : List (Int × DeckJson)) (mx : Int) (acc : List (Int × Int)) :
    (did = 1 ∧ importDecksGo ((did, d) :: rest) tgt mx acc
        = importDecksGo rest tgt mx (mput acc did 1)) ∨
    (∃ eid, importDecksGo ((did, d) :: rest) tgt mx acc
          = importDecksGo rest
              (tgt.map (fun p => if p.1 == eid then (p.1, { p.2 with usn := -1 }) else p)) mx
              (mput acc did eid) ∧
        ∃ p ∈ tgt, p.1 = eid) ∨
    (∃ nid, importDecksGo ((did, d) :: rest) tgt mx acc
          = importDecksGo rest (dput tgt nid { d with id := nid, usn := -1 }) nid
              (mput acc did nid)) := by
  by_cases h1 : did = 1
  · refine Or.inl ⟨h1, ?_⟩
    simp only [importDecksGo]
    rw [if_pos (by simp [h1])]
  · cases hf : tgt.find? (fun p => p.2.name == d.name) with
    | none =>
      refine Or.inr (Or.inr ⟨mx + 1, ?_⟩)
      simp only [importDecksGo, hf]
      rw [if_neg (by simp [h1])]
    | some p0 =>
      by_cases hz : p0.1 = 0
      · refine Or.inr (Or.inr ⟨mx + 1, ?_⟩)
        simp only [importDecksGo, hf]
        rw [if_neg (by simp [h1]), if_pos (by simp [hz])]
      · refine Or.inr (Or.inl ⟨p0.1, ?_, p0, List.mem_of_find?_eq_some hf, rfl⟩)
        simp only [importDecksGo, hf]
        rw [if_neg (by simp [h1]), if_neg (by simp [hz])]

/-- The in-place usn refresh of a matched deck preserves every key. -/
theorem deckUsnMap_keys_mono (l : List (Int × DeckJson)) (eid k0 : Int)
    (h : ∃ p ∈ l, p.1 = k0) :
    ∃ p ∈ l.map (fun p => if p.1 == eid then (p.1, { p.2 with usn := -1 }) else p),
      p.1 = k0 := by
  obtain ⟨p, hp, hpk⟩ := h
  have himg := List.mem_map_of_mem
    (fun q : Int × DeckJson => if q.1 == eid then (q.1, { q.2 with usn := -1 }) else q) hp
  dsimp only at himg
  by_cases he : (p.1 == eid) = true
  · rw [if_pos he] at himg
    exact ⟨_, himg, hpk⟩
  · rw [if_neg he] at himg
    exact ⟨p, himg, hpk⟩

/-! ## Key and map lemmas for the notetype merge -/

/-- The notetype merge preserves every target key. -/
theorem importNotetypesGo_keys_mono :
    ∀ (src tgt : List (Int × ModelJson)) (mx : Int) (acc : List (Int × Int)) (k0 : Int),
      (∃ p ∈ tgt, p.1 = k0) → ∃ p ∈ (importNotetypesGo src tgt mx acc).1, p.1 = k0 := by
  intro src
  induction src with
  | nil => intro tgt mx acc k0 h; exact h
  | cons hd rest ih =>
    obtain ⟨mid, m⟩ := hd
    intro tgt mx acc k0 h
    rcases importNotetypesGo_cons mid m rest tgt mx acc with ⟨eid, heq, _⟩ | ⟨nid, heq⟩
    · rw [heq]
      exact ih _ _ _ k0 h
    · rw [heq]
      exact ih _ _ _ k0 (dput_keys_mono _ _ _ k0 h)

/-- Every value the notetype map holds is a key of the merged model
table. -/
theorem importNotetypesGo_map_vals :
    ∀ (src tgt : List (Int × ModelJson)) (mx : Int) (acc : List (Int × Int)) (k v : Int),
      mget (importNotetypesGo src tgt mx acc).2 k = some v →
      mget acc k = some v ∨ ∃ p ∈ (importNotetypesGo src tgt mx acc).1, p.1 = v := by
  intro src
  induction src with
  | nil => intro tgt mx acc k v h; exact Or.inl h
  | cons hd rest ih =>
    obtain ⟨mid, m⟩ := hd
    intro tgt mx acc k v h
    rcases importNotetypesGo_cons mid m rest tgt mx acc with ⟨eid, heq, hkey⟩ | ⟨nid, heq⟩
    · rw [heq] at h ⊢
      rcases ih _ _ _ k v h with hacc | hfin
      · by_cases hk : mid = k
        · subst hk
          rw [mget_mput_self] at hacc
          obtain rfl := Option.some.inj hacc
          exact Or.inr (importNotetypesGo_keys_mono rest tgt mx _ eid hkey)
        · rw [mget_mput_ne _ _ _ _ hk] at hacc
          exact Or.inl hacc
      · exact Or.inr hfin
    · rw [heq] at h ⊢
      rcases ih _ _ _ k v h with hacc | hfin
      · by_cases hk : mid = k
        · subst hk
          rw [mget_mput_self] at hacc
          obtain rfl := Option.some.inj hacc
          exact Or.inr (importNotetypesGo_keys_mono rest _ _ _ nid (dput_mem_key tgt nid _))
        · rw [mget_mput_ne _ _ _ _ hk] at hacc
          exact Or.inl hacc
      · exact Or.inr hfin

/-- The notetype map covers every source model key. -/
theorem importNotetypesGo_map_cover :
    ∀ (src tgt : List (Int × ModelJson)) (mx : Int) (acc : List (Int × Int)) (k : Int),
      ((∃ p ∈ src, p.1 = k) ∨ (mget acc k).isSome) →
      (mget (importNotetypesGo src tgt mx acc).2 k).isSome := by
  intro src
  induction src with
  | nil =>
    intro tgt mx acc k h
    rcases h with ⟨p, hp, _⟩ | h
    · exact absurd hp (List.not_mem_nil p)
    · exact h
  | cons hd rest ih =>
    obtain ⟨mid, m⟩ := hd
    intro tgt mx acc k h
    have hnext : ∀ (w : Int),
        ((∃ p ∈ rest, p.1 = k) ∨ (mget (mput acc mid w) k).isSome) := by
      intro w
      rcases h with ⟨p, hp, hpk⟩ | hs
      · rcases List.mem_cons.mp hp with rfl | hp2
        · right
          have : mid = k := hpk
          subst this
          rw [mget_mput_self]
          rfl
        · exact Or.inl ⟨p, hp2, hpk⟩
      · exact Or.inr (mget_mput_isSome _ _ _ _ hs)
    rcases importNotetypesGo_cons mid m rest tgt mx acc with ⟨eid, heq, _⟩ | ⟨nid, heq⟩
    · rw [heq]
      exact ih _ _ _ k (hnext eid)
    · rw [heq]
      exact ih _ _ _ k (hnext nid)

/-! ## Key and map lemmas for the deck merge -/

/-- The deck merge preserves every target key. -/
theorem importDecksGo_keys_mono :
    ∀ (src tgt : List (Int × DeckJson)) (mx : Int) (acc : List (Int × Int)) (k0 : Int),
      (∃ p ∈ tgt, p.1 = k0) → ∃ p ∈ (importDecksGo src tgt mx acc).1, p.1 = k0 := by
  intro src
  induction src with
  | nil => intro tgt mx acc k0 h; exact h
  | cons hd rest ih =>
    obtain ⟨did, d⟩ := hd
    intro tgt mx acc k0 h
    rcases importDecksGo_cons did d rest tgt mx acc with
      ⟨_, heq⟩ | ⟨eid, heq, _⟩ | ⟨nid, heq⟩
    · rw [heq]
      exact ih _ _ _ k0 h
    · rw [heq]
      exact ih _ _ _ k0 (deckUsnMap_keys_mono tgt eid k0 h)
    · rw [heq]
      exact ih _ _ _ k0 (dput_keys_mono _ _ _ k0 h)

/-- Every value the deck map holds is 1 (the default deck) or a key of the
merged deck table. -/
theorem importDecksGo_map_vals :
    ∀ (src tgt : List (Int × DeckJson)) (mx : Int) (acc : List (Int × Int)) (k v : Int),
      mget (importDecksGo src tgt mx acc).2 k = some v →
      mget acc k = some v ∨ v = 1 ∨ ∃ p ∈ (importDecksGo src tgt mx acc).1, p.1 = v := by
  intro src
  induction src with
  | nil => intro tgt mx acc k v h; exact Or.inl h
  | cons hd rest ih =>
    obtain ⟨did, d⟩ := hd
    intro tgt mx acc k v h
    rcases importDecksGo_cons did d rest tgt mx acc with
      ⟨h1, heq⟩ | ⟨eid, heq, hkey⟩ | ⟨nid, heq⟩
    · rw [heq] at h ⊢
      rcases ih _ _ _ k v h with hacc | hrest
      · by_cases hk : did = k
        · subst hk
          rw [mget_mput_self] at hacc
          obtain rfl := Option.some.inj hacc
          exact Or.inr (Or.inl rfl)
        · rw [mget_mput_ne _ _ _ _ hk] at hacc
          exact Or.inl hacc
      · exact Or.inr hrest
    · rw [heq] at h ⊢
      rcases ih _ _ _ k v h with hacc | hrest
      · by_cases hk : did = k
        · subst hk
          rw [mget_mput_self] at hacc
          obtain rfl := Option.some.inj hacc
          exact Or.inr (Or.inr (importDecksGo_keys_mono rest _ mx _ eid
            (deckUsnMap_keys_mono tgt eid eid hkey)))
        · rw [mget_mput_ne _ _ _ _ hk] at hacc
          exact Or.inl hacc
      · exact Or.inr hrest
    · rw [heq] at h ⊢
      rcases ih _ _ _ k v h with hacc | hrest
      · by_cases hk : did = k
        · subst hk
          rw [mget_mput_self] at hacc
          obtain rfl := Option.some.inj hacc
          exact Or.inr (Or.inr (importDecksGo_keys_mono rest _ _ _ nid (dput_mem_key tgt nid _)))
        · rw [mget_mput_ne _ _ _ _ hk] at hacc
          exact Or.inl hacc
      · exact Or.inr hrest

/-- The deck map covers every source deck key. -/
theorem importDecksGo_map_cover :
    ∀ (src tgt : List (Int × DeckJson)) (mx : Int) (acc : List (Int × Int)) (k : Int),
      ((∃ p ∈ src, p.1 = k) ∨ (mget acc k).isSome) →
      (mget (importDecksGo src tgt mx acc).2 k).isSome := by
  intro src
  induction src with
  | nil =>
    intro tgt mx acc k h
    rcases h with ⟨p, hp, _⟩ | h
    · exact absurd hp (List.not_mem_nil p)
    · exact h
  | cons hd rest ih =>
    obtain ⟨did, d⟩ := hd
    intro tgt mx acc k h
    have hnext : ∀ (w : Int),
        ((∃ p ∈ rest, p.1 = k) ∨ (mget (mput acc did w) k).isSome) := by
      intro w
      rcases h with ⟨p, hp, hpk⟩ | hs
      · rcases List.mem_cons.mp hp with rfl | hp2
        · right
          have : did = k := hpk
          subst this
          rw [mget_mput_self]
          rfl
        · exact Or.inl ⟨p, hp2, hpk⟩
      · exact Or.inr (mget_mput_isSome _ _ _ _ hs)
    rcases importDecksGo_cons did d rest tgt mx acc with
      ⟨_, heq⟩ | ⟨eid, heq, _⟩ | ⟨nid, heq⟩
    · rw [heq]
      exact ih _ _ _ k (hnext 1)
    · rw [heq]
      exact ih _ _ _ k (hnext eid)
    · rw [heq]
      exact ih _ _ _ k (hnext nid)

/-! ## Key and map lemmas for the note merge -/

/-- The note merge never removes a target row. -/
theorem importNotesGo_mono (off : Int) (mmap : List (Int × Int))
    (src tgt : List NoteRow) (acc : List (Int × Int)) :
    ∀ n ∈ tgt, n ∈ (importNotesGo off mmap src tgt acc).1 := by
  obtain ⟨ins, h1, _⟩ := importNotesGo_shape off mmap src tgt acc
  intro n hn
  rw [h1]
  exact List.mem_append_left _ hn

/-- Matched head step of the note loop. -/
theorem importNotesGo_cons_matched (off : Int) (mmap : List (Int × Int))
    (sn : NoteRow) (rest tgt : List NoteRow) (acc : List (Int × Int)) (ex : NoteRow)
    (hf : tgt.find? (fun n => n.guid == sn.guid) = some ex) :
    importNotesGo off mmap (sn :: rest) tgt acc
      = importNotesGo off mmap rest tgt
          (mput (mput acc sn.id (sn.id + off + 1)) sn.id ex.id) := by
  simp only [importNotesGo, hf]

/-- Inserting head step of the note loop. -/
theorem importNotesGo_cons_new (off : Int) (mmap : List (Int × Int))
    (sn : NoteRow) (rest tgt : List NoteRow) (acc : List (Int × Int))
    (hf : tgt.find? (fun n => n.guid == sn.guid) = none) :
    importNotesGo off mmap (sn :: rest) tgt acc
      = importNotesGo off mmap rest
          (tgt ++ [{ sn with id := sn.id + off + 1,
                             mid := (mget mmap sn.mid).getD sn.mid, usn := -1 }])
          (mput acc sn.id (sn.id + off + 1)) := by
  simp only [importNotesGo, hf]

/-- Every value the note map holds is the id of a note present in the
merged note table. -/
theorem importNotesGo_map_vals (off : Int) (mmap : List (Int × Int)) :
    ∀ (src tgt : List NoteRow) (acc : List (Int × Int)) (k v : Int),
      mget (importNotesGo off mmap src tgt acc).2 k = some v →
      mget acc k = some v ∨ ∃ n ∈ (importNotesGo off mmap src tgt acc).1, n.id = v := by
  intro src
  induction src with
  | nil => intro tgt acc k v h; exact Or.inl h
  | cons sn rest ih =>
    intro tgt acc k v h
    cases hf : tgt.find? (fun n => n.guid == sn.guid) with
    | some ex =>
      rw [importNotesGo_cons_matched off mmap sn rest tgt acc ex hf] at h ⊢
      rcases ih _ _ k v h with hacc | hrest
      · by_cases hk : sn.id = k
        · subst hk
          rw [mget_mput_self] at hacc
          obtain rfl := Option.some.inj hacc
          exact Or.inr ⟨ex, importNotesGo_mono off mmap rest tgt _ ex
            (List.mem_of_find?_eq_some hf), rfl⟩
        · rw [mget_mput_ne _ _ _ _ hk, mget_mput_ne _ _ _ _ hk] at hacc
          exact Or.inl hacc
      · exact Or.inr hrest
    | none =>
      rw [importNotesGo_cons_new off mmap sn rest tgt acc hf] at h ⊢
      rcases ih _ _ k v h with hacc | hrest
      · by_cases hk : sn.id = k
        · subst hk
          rw [mget_mput_self] at hacc
          obtain rfl := Option.some.inj hacc
          refine Or.inr ⟨_, importNotesGo_mono off mmap rest _ _ _
            (List.mem_append_right _ (List.mem_singleton.mpr rfl)), rfl⟩
        · rw [mget_mput_ne _ _ _ _ hk] at hacc
          exact Or.inl hacc
      · exact Or.inr hrest

/-- The note map covers every source note id. -/
theorem importNotesGo_map_cover (off : Int) (mmap : List (Int × Int)) :
    ∀ (src tgt : List NoteRow) (acc : List (Int × Int)) (k : Int),
      ((∃ sn ∈ src, sn.id = k) ∨ (mget acc k).isSome) →
      (mget (importNotesGo off mmap src tgt acc).2 k).isSome := by
  intro src
  induction src with
  | nil =>
    intro tgt acc k h
    rcases h with ⟨sn, hsn, _⟩ | h
    · exact absurd hsn (List.not_mem_nil sn)
    · exact h
  | cons sn rest ih =>
    intro tgt acc k h
    have hnext : ∀ (m2 : List (Int × Int)),
        (mget m2 k).isSome →
        ((∃ s2 ∈ rest, s2.id = k) ∨ (mget m2 k).isSome) := fun _ h2 => Or.inr h2
    have hcases : (∃ s2 ∈ rest, s2.id = k) ∨ k = sn.id ∨ (mget acc k).isSome := by
      rcases h with ⟨s2, hs2, hk⟩ | hs
      · rcases List.mem_cons.mp hs2 with rfl | hmem
        · exact Or.inr (Or.inl hk.symm)
        · exact Or.inl ⟨s2, hmem, hk⟩
      · exact Or.inr (Or.inr hs)
    cases hf : tgt.find? (fun n => n.guid == sn.guid) with
    | some ex =>
      rw [importNotesGo_cons_matched off mmap sn rest tgt acc ex hf]
      apply ih
      rcases hcases with h1 | h1 | h1
      · exact Or.inl h1
      · subst h1
        right
        rw [mget_mput_self]
        rfl
      · exact Or.inr (mget_mput_isSome _ _ _ _ (mget_mput_isSome _ _ _ _ h1))
    | none =>
      rw [importNotesGo_cons_new off mmap sn rest tgt acc hf]
      apply ih
      rcases hcases with h1 | h1 | h1
      · exact Or.inl h1
      · subst h1
        right
        rw [mget_mput_self]
        rfl
      · exact Or.inr (mget_mput_isSome _ _ _ _ h1)

/-! ## C4: referential integrity after a merge -/

/-- The merged model table, as produced by the notetype phase. -/
theorem importCollectionData_models (nowDeckMs nowColMs : Int) (source target : Collection) :
    (importCollectionData nowDeckMs nowColMs source target).1.models
      = (importNotetypesGo source.models target.models
          (target.models.foldl (fun a p => max a p.1) 0) []).1 := rfl

/-- The merged deck table, as produced by the deck phase. -/
theorem importCollectionData_decks (nowDeckMs nowColMs : Int) (source target : Collection) :
    (importCollectionData nowDeckMs nowColMs source target).1.decks
      = (importDecksGo source.decks target.decks nowDeckMs []).1 := rfl

/-- C4: if the source database and the target database each satisfy the
schema's referential invariants (every card references an existing note and
deck, every note an existing notetype) and the target holds the default
deck (id 1), then after a merge — for any id overlap between source and
target — every card of the result references a note present in the result
and a deck key present in the result, and every note references a notetype
key present in the result. -/
theorem merge_referential_integrity (nowDeckMs nowColMs : Int) (source target : Collection)
    (hT1 : ∀ c ∈ target.cards, ∃ n ∈ target.notes, n.id = c.nid)
    (hT2 : ∀ c ∈ target.cards, ∃ p ∈ target.decks, p.1 = c.did)
    (hT3 : ∀ n ∈ target.notes, ∃ p ∈ target.models, p.1 = n.mid)
    (hS1 : ∀ c ∈ source.cards, ∃ n ∈ source.notes, n.id = c.nid)
    (hS2 : ∀ c ∈ source.cards, ∃ p ∈ source.decks, p.1 = c.did)
    (hS3 : ∀ n ∈ source.notes, ∃ p ∈ source.models, p.1 = n.mid)
    (hD1 : ∃ p ∈ target.decks, p.1 = 1) :
    (∀ c ∈ (importCollectionData nowDeckMs nowColMs source target).1.cards,
        ∃ n ∈ (importCollectionData nowDeckMs nowColMs source target).1.notes, n.id = c.nid) ∧
    (∀ c ∈ (importCollectionData nowDeckMs nowColMs source target).1.cards,
        ∃ p ∈ (importCollectionData nowDeckMs nowColMs source target).1.decks, p.1 = c.did) ∧
    (∀ n ∈ (importCollectionData nowDeckMs nowColMs source target).1.notes,
        ∃ p ∈ (importCollectionData nowDeckMs nowColMs source target).1.models,
          p.1 = n.mid) := by
  obtain ⟨insC, hC1, _, hC3⟩ := importCardsGo_shape
    (pyOr0 (listMax? (target.cards.map (fun c => c.id))))
    (importNotesGo (pyOr0 (listMax? (target.notes.map (fun n => n.id))))
      (importNotetypes source.models target.models).2 source.notes target.notes []).2
    (importDecks nowDeckMs source.decks target.decks).2 source.cards target.cards 0
  obtain ⟨insN, hN1, hN2⟩ := importNotesGo_shape
    (pyOr0 (listMax? (target.notes.map (fun n => n.id))))
    (importNotetypes source.models target.models).2 source.notes target.notes []
  refine ⟨?_, ?_, ?_⟩
  · -- every merged card references a merged note
    intro c hc
    rw [importCollectionData_cards, hC1] at hc
    obtain ⟨m, hm, rfl⟩ := List.mem_map.mp hc
    rw [sweepCard_nid]
    rcases List.mem_append.mp hm with hmm | hmm
    · obtain ⟨n0, hn0, hid0⟩ := hT1 m hmm
      refine ⟨sweepNote n0, ?_, ?_⟩
      · rw [importCollectionData_notes]
        exact List.mem_map_of_mem _
          (importNotesGo_mono _ _ source.notes target.notes [] n0 hn0)
      · rw [sweepNote_id, hid0]
    · obtain ⟨sc, hsc, rfl⟩ := hC3 m hmm
      obtain ⟨sn, hsn, hsnid⟩ := hS1 sc hsc
      have hsome := importNotesGo_map_cover
        (pyOr0 (listMax? (target.notes.map (fun n => n.id))))
        (importNotetypes source.models target.models).2 source.notes target.notes [] sc.nid
        (Or.inl ⟨sn, hsn, hsnid⟩)
      obtain ⟨v, hv⟩ := Option.isSome_iff_exists.mp hsome
      rcases importNotesGo_map_vals _ _ source.notes target.notes [] sc.nid v hv with
        hnone | ⟨n1, hn1, hid1⟩
      · rw [mget_nil] at hnone
        exact absurd hnone (by simp)
      · refine ⟨sweepNote n1, ?_, ?_⟩
        · rw [importCollectionData_notes]
          exact List.mem_map_of_mem _ hn1
        · rw [sweepNote_id, hid1]
          show v = (mget (importNotesGo
              (pyOr0 (listMax? (target.notes.map (fun n => n.id))))
              (importNotetypes source.models target.models).2
              source.notes target.notes []).2 sc.nid).getD sc.nid
          rw [hv]
          rfl
  · -- every merged card references a merged deck key
    intro c hc
    rw [importCollectionData_cards, hC1] at hc
    obtain ⟨m, hm, rfl⟩ := List.mem_map.mp hc
    rw [sweepCard_did]
    rcases List.mem_append.mp hm with hmm | hmm
    · obtain ⟨p0, hp0, hid0⟩ := hT2 m hmm
      rw [importCollectionData_decks]
      exact importDecksGo_keys_mono source.decks target.decks nowDeckMs [] m.did
        ⟨p0, hp0, hid0⟩
    · obtain ⟨sc, hsc, rfl⟩ := hC3 m hmm
      obtain ⟨pd, hpd, hpdid⟩ := hS2 sc hsc
      have hsome := importDecksGo_map_cover source.decks target.decks nowDeckMs [] sc.did
        (Or.inl ⟨pd, hpd, hpdid⟩)
      obtain ⟨v, hv⟩ := Option.isSome_iff_exists.mp hsome
      have hget : (mget (importDecks nowDeckMs source.decks target.decks).2 sc.did).getD sc.did
          = v := by
        show (mget (importDecksGo source.decks target.decks nowDeckMs []).2 sc.did).getD sc.did
          = v
        rw [hv]
        rfl
      rw [importCollectionData_decks]
      show ∃ p ∈ (importDecksGo source.decks target.decks nowDeckMs []).1,
        p.1 = (mget (importDecks nowDeckMs source.decks target.decks).2 sc.did).getD sc.did
      rw [hget]
      rcases importDecksGo_map_vals source.decks target.decks nowDeckMs [] sc.did v hv with
        hnone | hone | hkey
      · rw [mget_nil] at hnone
        exact absurd hnone (by simp)
      · subst hone
        exact importDecksGo_keys_mono source.decks target.decks nowDeckMs [] 1 hD1
      · exact hkey
  · -- every merged note references a merged notetype key
    intro n hn
    rw [importCollectionData_notes, hN1] at hn
    obtain ⟨m, hm, rfl⟩ := List.mem_map.mp hn
    rw [sweepNote_mid]
    rcases List.mem_append.mp hm with hmm | hmm
    · obtain ⟨p0, hp0, hid0⟩ := hT3 m hmm
      rw [importCollectionData_models]
      exact importNotetypesGo_keys_mono source.models target.models _ [] m.mid ⟨p0, hp0, hid0⟩
    · obtain ⟨sn, hsn, rfl⟩ := hN2 m hmm
      obtain ⟨pm, hpm, hpmid⟩ := hS3 sn hsn
      have hsome := importNotetypesGo_map_cover source.models target.models
        (target.models.foldl (fun a p => max a p.1) 0) [] sn.mid (Or.inl ⟨pm, hpm, hpmid⟩)
      obtain ⟨v, hv⟩ := Option.isSome_iff_exists.mp hsome
      have hget : (mget (importNotetypes source.models target.models).2 sn.mid).getD sn.mid
          = v := by
        show (mget (importNotetypesGo source.models target.models
            (target.models.foldl (fun a p => max a p.1) 0) []).2 sn.mid).getD sn.mid = v
        rw [hv]
        rfl
      rw [importCollectionData_models]
      show ∃ p ∈ (importNotetypesGo source.models target.models
          (target.models.foldl (fun a p => max a p.1) 0) []).1,
        p.1 = (mget (importNotetypes source.models target.models).2 sn.mid).getD sn.mid
      rw [hget]
      rcases importNotetypesGo_map_vals source.models target.models
          (target.models.foldl (fun a p => max a p.1) 0) [] sn.mid v hv with
        hnone | hkey
      · rw [mget_nil] at hnone
        exact absurd hnone (by simp)
      · exact hkey

/-- Witness for C4 on concrete overlapping data: after merging `src0` into
`tgtB`, the (swept) pre-existing card still resolves to a note present in
the merged note table. -/
theorem merge_referential_integrity_witness :
    (importCollectionData 3 4 src0 tgtB).1.notes.any
      (fun n => n.id == (sweepCard cardT).nid) = true := by
  have h := merge_referential_integrity 3 4 src0 tgtB
    (by decide) (by decide) (by decide) (by decide) (by decide) (by decide) (by decide)
  obtain ⟨n, hn, hid⟩ := h.1 (sweepCard cardT) (by decide)
  exact List.any_eq_true.mpr ⟨n, hn, by simp [hid]⟩

/-! ## C3: lemmas for merging the same package twice -/

/-- The usn sweep is idempotent on notes. -/
theorem sweepNote_idem (n : NoteRow) : sweepNote (sweepNote n) = sweepNote n := by
  unfold sweepNote
  by_cases h : (0 : Int) ≤ n.usn
  · rw [if_pos h]
    exact if_neg (by show ¬ (0 : Int) ≤ -1; norm_num)
  · rw [if_neg h, if_neg h]

/-- The usn sweep is idempotent on cards. -/
theorem sweepCard_idem (c : CardRow) : sweepCard (sweepCard c) = sweepCard c := by
  unfold sweepCard
  by_cases h : (0 : Int) ≤ c.usn
  · rw [if_pos h]
    exact if_neg (by show ¬ (0 : Int) ≤ -1; norm_num)
  · rw [if_neg h, if_neg h]

/-- The guid search commutes with the usn sweep. -/
theorem find?_guid_map_sweep (l : List NoteRow) (g : String) :
    (l.map sweepNote).find? (fun n => n.guid == g)
      = (l.find? (fun n => n.guid == g)).map sweepNote := by
  have hp : ((fun n : NoteRow => n.guid == g) ∘ sweepNote)
      = (fun n : NoteRow => n.guid == g) := by
    funext n
    simp [Function.comp, sweepNote_guid]
  rw [List.find?_map, hp]

/-- After the note import, every source guid is present in the target. -/
theorem importNotesGo_guid_cover (off : Int) (mmap : List (Int × Int)) :
    ∀ (src tgt : List NoteRow) (acc : List (Int × Int)),
      ∀ sn ∈ src, ∃ n ∈ (importNotesGo off mmap src tgt acc).1, n.guid = sn.guid := by
  intro src
  induction src with
  | nil => intro tgt acc sn hsn; exact absurd hsn (List.not_mem_nil sn)
  | cons sn0 rest ih =>
    intro tgt acc sn hsn
    cases hf : tgt.find? (fun n => n.guid == sn0.guid) with
    | some ex =>
      rw [importNotesGo_cons_matched off mmap sn0 rest tgt acc ex hf]
      rcases List.mem_cons.mp hsn with rfl | hsn2
      · refine ⟨ex, importNotesGo_mono _ _ _ _ _ ex (List.mem_of_find?_eq_some hf), ?_⟩
        have := List.find?_some hf
        simpa using this
      · exact ih tgt _ sn hsn2
    | none =>
      rw [importNotesGo_cons_new off mmap sn0 rest tgt acc hf]
      rcases List.mem_cons.mp hsn with rfl | hsn2
      · exact ⟨_, importNotesGo_mono _ _ rest _ _ _
          (List.mem_append_right _ (List.mem_singleton.mpr rfl)), rfl⟩
      · exact ih _ _ sn hsn2

/-- When every source guid already exists in the target, the note import
inserts nothing. -/
theorem importNotesGo_noop (off : Int) (mmap : List (Int × Int)) :
    ∀ (src tgt : List NoteRow) (acc : List (Int × Int)),
      (∀ sn ∈ src, ∃ n ∈ tgt, n.guid = sn.guid) →
      (importNotesGo off mmap src tgt acc).1 = tgt := by
  intro src
  induction src with
  | nil => intro tgt acc _; rfl
  | cons sn0 rest ih =>
    intro tgt acc hcov
    cases hf : tgt.find? (fun n => n.guid == sn0.guid) with
    | some ex =>
      rw [importNotesGo_cons_matched off mmap sn0 rest tgt acc ex hf]
      exact ih tgt _ (fun sn hsn => hcov sn (List.mem_cons_of_mem _ hsn))
    | none =>
      obtain ⟨n, hn, hg⟩ := hcov sn0 (List.mem_cons_self sn0 rest)
      exact absurd (by simp [hg]) (List.find?_eq_none.mp hf n hn)

/-- Keys of no source note are ever assigned by the note import. -/
theorem importNotesGo_map_frame (off : Int) (mmap : List (Int × Int)) :
    ∀ (src tgt : List NoteRow) (acc : List (Int × Int)) (k : Int),
      (∀ sn ∈ src, sn.id ≠ k) →
      mget (importNotesGo off mmap src tgt acc).2 k = mget acc k := by
  intro src
  induction src with
  | nil => intro tgt acc k _; rfl
  | cons sn0 rest ih =>
    intro tgt acc k hne
    have hne0 : sn0.id ≠ k := hne sn0 (List.mem_cons_self sn0 rest)
    have hner : ∀ sn ∈ rest, sn.id ≠ k := fun sn hsn => hne sn (List.mem_cons_of_mem _ hsn)
    cases hf : tgt.find? (fun n => n.guid == sn0.guid) with
    | some ex =>
      rw [importNotesGo_cons_matched off mmap sn0 rest tgt acc ex hf, ih _ _ k hner,
          mget_mput_ne _ _ _ _ hne0, mget_mput_ne _ _ _ _ hne0]
    | none =>
      rw [importNotesGo_cons_new off mmap sn0 rest tgt acc hf, ih _ _ k hner,
          mget_mput_ne _ _ _ _ hne0]

/-- For distinct source ids, the note map sends each source note id to the
id of the first note with that guid in the merged table. -/
theorem importNotesGo_map_spec (off : Int) (mmap : List (Int × Int)) :
    ∀ (src tgt : List NoteRow) (acc : List (Int × Int)),
      (src.map (fun n => n.id)).Nodup →
      ∀ sn ∈ src, ∃ nf,
        ((importNotesGo off mmap src tgt acc).1).find? (fun n => n.guid == sn.guid)
            = some nf ∧
        mget (importNotesGo off mmap src tgt acc).2 sn.id = some nf.id := by
  intro src
  induction src with
  | nil => intro tgt acc _ sn hsn; exact absurd hsn (List.not_mem_nil sn)
  | cons sn0 rest ih =>
    intro tgt acc hnd sn hsn
    rw [List.map_cons] at hnd
    obtain ⟨hnotin, hnd2⟩ := List.nodup_cons.mp hnd
    have hfr : ∀ s2 ∈ rest, s2.id ≠ sn0.id := by
      intro s2 hs2 hcontra
      exact hnotin (hcontra ▸ List.mem_map_of_mem (fun n => n.id) hs2)
    cases hf : tgt.find? (fun n => n.guid == sn0.guid) with
    | some ex =>
      rw [importNotesGo_cons_matched off mmap sn0 rest tgt acc ex hf]
      rcases List.mem_cons.mp hsn with rfl | hsn2
      · obtain ⟨ins, hsh, _⟩ := importNotesGo_shape off mmap rest tgt
          (mput (mput acc sn.id (sn.id + off + 1)) sn.id ex.id)
        refine ⟨ex, ?_, ?_⟩
        · rw [hsh, List.find?_append, hf]
          rfl
        · rw [importNotesGo_map_frame off mmap rest tgt _ sn.id hfr]
          exact mget_mput_self _ _ _
      · exact ih tgt _ hnd2 sn hsn2
    | none =>
      rw [importNotesGo_cons_new off mmap sn0 rest tgt acc hf]
      rcases List.mem_cons.mp hsn with rfl | hsn2
      · obtain ⟨ins, hsh, _⟩ := importNotesGo_shape off mmap rest
          (tgt ++ [{ sn with id := sn.id + off + 1,
                             mid := (mget mmap sn.mid).getD sn.mid, usn := -1 }])
          (mput acc sn.id (sn.id + off + 1))
        refine ⟨{ sn with id := sn.id + off + 1,
                          mid := (mget mmap sn.mid).getD sn.mid, usn := -1 }, ?_, ?_⟩
        · rw [hsh, List.append_assoc, List.find?_append, hf, Option.none_or,
              List.find?_append, List.find?_cons_of_pos _ (by simp)]
          rfl
        · rw [importNotesGo_map_frame off mmap rest _ _ sn.id hfr]
          exact mget_mput_self _ _ _
      · exact ih _ _ hnd2 sn hsn2

/-- The card import never removes a target row. -/
theorem importCardsGo_mono (off : Int) (nmap dmap : List (Int × Int))
    (src tgt : List CardRow) (cnt : Nat) :
    ∀ c ∈ tgt, c ∈ (importCardsGo off nmap dmap src tgt cnt).1 := by
  obtain ⟨ins, h1, _, _⟩ := importCardsGo_shape off nmap dmap src tgt cnt
  intro c hc
  rw [h1]
  exact List.mem_append_left _ hc

/-- Skipping head step of the card loop. -/
theorem importCardsGo_cons_matched (off : Int) (nmap dmap : List (Int × Int))
    (sc : CardRow) (rest tgt : List CardRow) (cnt : Nat) (ex : CardRow)
    (hf : tgt.find? (fun tc =>
        tc.nid == (mget nmap sc.nid).getD sc.nid && tc.ord == sc.ord) = some ex) :
    importCardsGo off nmap dmap (sc :: rest) tgt cnt
      = importCardsGo off nmap dmap rest tgt cnt := by
  simp only [importCardsGo, hf]

/-- Inserting head step of the card loop. -/
theorem importCardsGo_cons_new (off : Int) (nmap dmap : List (Int × Int))
    (sc : CardRow) (rest tgt : List CardRow) (cnt : Nat)
    (hf : tgt.find? (fun tc =>
        tc.nid == (mget nmap sc.nid).getD sc.nid && tc.ord == sc.ord) = none) :
    importCardsGo off nmap dmap (sc :: rest) tgt cnt
      = importCardsGo off nmap dmap rest
          (tgt ++ [{ sc with id := sc.id + off + 1,
                             nid := (mget nmap sc.nid).getD sc.nid,
                             did := (mget dmap sc.did).getD sc.did, usn := -1 }])
          (cnt + 1) := by
  simp only [importCardsGo, hf]

/-- After the card import, every source card has a target card with its
remapped note id and its ordinal. -/
theorem importCardsGo_exists (off : Int) (nmap dmap : List (Int × Int)) :
    ∀ (src tgt : List CardRow) (cnt : Nat), ∀ sc ∈ src,
      ∃ tc ∈ (importCardsGo off nmap dmap src tgt cnt).1,
        tc.nid = (mget nmap sc.nid).getD sc.nid ∧ tc.ord = sc.ord := by
  intro src
  induction src with
  | nil => intro tgt cnt sc hsc; exact absurd hsc (List.not_mem_nil sc)
  | cons sc0 rest ih =>
    intro tgt cnt sc hsc
    cases hf : tgt.find? (fun tc =>
        tc.nid == (mget nmap sc0.nid).getD sc0.nid && tc.ord == sc0.ord) with
    | some ex =>
      rw [importCardsGo_cons_matched off nmap dmap sc0 rest tgt cnt ex hf]
      rcases List.mem_cons.mp hsc with rfl | hsc2
      · have hp := List.find?_some hf
        simp only [Bool.and_eq_true, beq_iff_eq] at hp
        exact ⟨ex, importCardsGo_mono off nmap dmap rest tgt cnt ex
          (List.mem_of_find?_eq_some hf), hp.1, hp.2⟩
      · exact ih tgt cnt sc hsc2
    | none =>
      rw [importCardsGo_cons_new off nmap dmap sc0 rest tgt cnt hf]
      rcases List.mem_cons.mp hsc with rfl | hsc2
      · exact ⟨_, importCardsGo_mono off nmap dmap rest _ _ _
          (List.mem_append_right _ (List.mem_singleton.mpr rfl)), rfl, rfl⟩
      · exact ih _ _ sc hsc2

/-- When every source card already has a target card with the remapped note
id and ordinal, the card import inserts nothing and returns the count
unchanged. -/
theorem importCardsGo_noop (off : Int) (nmap dmap : List (Int × Int)) :
    ∀ (src tgt : List CardRow) (cnt : Nat),
      (∀ sc ∈ src, ∃ tc ∈ tgt,
          tc.nid = (mget nmap sc.nid).getD sc.nid ∧ tc.ord = sc.ord) →
      importCardsGo off nmap dmap src tgt cnt = (tgt, cnt) := by
  intro src
  induction src with
  | nil => intro tgt cnt _; rfl
  | cons sc0 rest ih =>
    intro tgt cnt hcov
    cases hf : tgt.find? (fun tc =>
        tc.nid == (mget nmap sc0.nid).getD sc0.nid && tc.ord == sc0.ord) with
    | some ex =>
      rw [importCardsGo_cons_matched off nmap dmap sc0 rest tgt cnt ex hf]
      exact ih tgt cnt (fun sc hsc => hcov sc (List.mem_cons_of_mem _ hsc))
    | none =>
      obtain ⟨tc, htc, h1, h2⟩ := hcov sc0 (List.mem_cons_self sc0 rest)
      exact absurd (by simp [h1, h2]) (List.find?_eq_none.mp hf tc htc)

/-- The merge result count, as produced by the card phase. -/
theorem importCollectionData_count (nowDeckMs nowColMs : Int) (source target : Collection) :
    (importCollectionData nowDeckMs nowColMs source target).2
      = (importCardsGo (pyOr0 (listMax? (target.cards.map (fun c => c.id))))
          (importNotesGo (pyOr0 (listMax? (target.notes.map (fun n => n.id))))
            (importNotetypes source.models target.models).2 source.notes target.notes []).2
          (importDecks nowDeckMs source.decks target.decks).2 source.cards target.cards 0).2 :=
  rfl

/-- Re-running the note import against the (swept) result of a first run
resolves every card-side note id exactly as the first run did: for source
note ids both maps give the same target id, and other ids fall through
unchanged in both runs. -/
theorem importNotesGo_map_agree (off1 off2 : Int) (mmap1 mmap2 : List (Int × Int))
    (src tgt : List NoteRow) (hNodup : (src.map (fun n => n.id)).Nodup) (k : Int) :
    (mget (importNotesGo off2 mmap2 src
        ((importNotesGo off1 mmap1 src tgt []).1.map sweepNote) []).2 k).getD k
      = (mget (importNotesGo off1 mmap1 src tgt []).2 k).getD k := by
  by_cases hk : ∃ sn ∈ src, sn.id = k
  · obtain ⟨sn, hsn, hks⟩ := hk
    subst hks
    obtain ⟨nf1, hfind1, hget1⟩ := importNotesGo_map_spec off1 mmap1 src tgt [] hNodup sn hsn
    obtain ⟨nf2, hfind2, hget2⟩ := importNotesGo_map_spec off2 mmap2 src
      ((importNotesGo off1 mmap1 src tgt []).1.map sweepNote) [] hNodup sn hsn
    have hcov : ∀ s2 ∈ src, ∃ n ∈ (importNotesGo off1 mmap1 src tgt []).1.map sweepNote,
        n.guid = s2.guid := by
      intro s2 hs2
      obtain ⟨n, hn, hg⟩ := importNotesGo_guid_cover off1 mmap1 src tgt [] s2 hs2
      exact ⟨sweepNote n, List.mem_map_of_mem _ hn, by rw [sweepNote_guid]; exact hg⟩
    have hno := importNotesGo_noop off2 mmap2 src
      ((importNotesGo off1 mmap1 src tgt []).1.map sweepNote) [] hcov
    rw [hno, find?_guid_map_sweep, hfind1] at hfind2
    simp only [Option.map_some'] at hfind2
    obtain rfl := Option.some.inj hfind2
    rw [hget1, hget2]
    simp [sweepNote_id]
  · push_neg at hk
    rw [importNotesGo_map_frame off2 mmap2 src _ [] k hk,
        importNotesGo_map_frame off1 mmap1 src tgt [] k hk]

/-- A merge whose source notes all match target guids and whose source
cards all match target (remapped nid, ord) pairs inserts nothing: the
result is the swept target and a zero import count. -/
theorem importCollectionData_noop_conditions (nowDeckMs nowColMs : Int) (src t1 : Collection)
    (hcov : ∀ sn ∈ src.notes, ∃ n ∈ t1.notes, n.guid = sn.guid)
    (hcards : ∀ sc ∈ src.cards, ∃ tc ∈ t1.cards,
        tc.nid = (mget (importNotesGo (pyOr0 (listMax? (t1.notes.map (fun n => n.id))))
            (importNotetypes src.models t1.models).2 src.notes t1.notes []).2 sc.nid).getD
              sc.nid
        ∧ tc.ord = sc.ord) :
    (importCollectionData nowDeckMs nowColMs src t1).1.notes = t1.notes.map sweepNote ∧
    (importCollectionData nowDeckMs nowColMs src t1).1.cards = t1.cards.map sweepCard ∧
    (importCollectionData nowDeckMs nowColMs src t1).2 = 0 := by
  have hnoop := importNotesGo_noop (pyOr0 (listMax? (t1.notes.map (fun n => n.id))))
    (importNotetypes src.models t1.models).2 src.notes t1.notes [] hcov
  have hcnoop := importCardsGo_noop (pyOr0 (listMax? (t1.cards.map (fun c => c.id))))
    (importNotesGo (pyOr0 (listMax? (t1.notes.map (fun n => n.id))))
      (importNotetypes src.models t1.models).2 src.notes t1.notes []).2
    (importDecks nowDeckMs src.decks t1.decks).2 src.cards t1.cards 0 hcards
  refine ⟨?_, ?_, ?_⟩
  · rw [importCollectionData_notes, hnoop]
  · rw [importCollectionData_cards, hcnoop]
  · rw [importCollectionData_count, hcnoop]

/-- C3: merging the same package into the same target a second time changes
nothing: the second merge leaves the note count and the card count of the
target unchanged (notes are deduplicated by guid, cards by (remapped note
id, ordinal)) and returns 0 cards imported. Source note ids are distinct,
being a primary key. -/
theorem merge_twice_noop (nd1 nc1 nd2 nc2 : Int) (src tgt : Collection)
    (hNodup : (src.notes.map (fun n => n.id)).Nodup) :
    (importCollectionData nd2 nc2 src
        (importCollectionData nd1 nc1 src tgt).1).1.notes.length
      = (importCollectionData nd1 nc1 src tgt).1.notes.length ∧
    (importCollectionData nd2 nc2 src
        (importCollectionData nd1 nc1 src tgt).1).1.cards.length
      = (importCollectionData nd1 nc1 src tgt).1.cards.length ∧
    (importCollectionData nd2 nc2 src (importCollectionData nd1 nc1 src tgt).1).2 = 0 := by
  have hcov : ∀ sn ∈ src.notes, ∃ n ∈ (importCollectionData nd1 nc1 src tgt).1.notes,
      n.guid = sn.guid := by
    intro sn hsn
    obtain ⟨n, hn, hg⟩ := importNotesGo_guid_cover
      (pyOr0 (listMax? (tgt.notes.map (fun n => n.id))))
      (importNotetypes src.models tgt.models).2 src.notes tgt.notes [] sn hsn
    refine ⟨sweepNote n, ?_, ?_⟩
    · rw [importCollectionData_notes]
      exact List.mem_map_of_mem _ hn
    · rw [sweepNote_guid]
      exact hg
  have hcards : ∀ sc ∈ src.cards,
      ∃ tc ∈ (importCollectionData nd1 nc1 src tgt).1.cards,
        tc.nid = (mget (importNotesGo
            (pyOr0 (listMax?
              ((importCollectionData nd1 nc1 src tgt).1.notes.map (fun n => n.id))))
            (importNotetypes src.models (importCollectionData nd1 nc1 src tgt).1.models).2
            src.notes (importCollectionData nd1 nc1 src tgt).1.notes []).2 sc.nid).getD sc.nid
        ∧ tc.ord = sc.ord := by
    intro sc hsc
    obtain ⟨tc, htc, h1, h2⟩ := importCardsGo_exists
      (pyOr0 (listMax? (tgt.cards.map (fun c => c.id))))
      (importNotesGo (pyOr0 (listMax? (tgt.notes.map (fun n => n.id))))
        (importNotetypes src.models tgt.models).2 src.notes tgt.notes []).2
      (importDecks nd1 src.decks tgt.decks).2 src.cards tgt.cards 0 sc hsc
    refine ⟨sweepCard tc, ?_, ?_, ?_⟩
    · rw [importCollectionData_cards]
      exact List.mem_map_of_mem _ htc
    · rw [sweepCard_nid, h1, importCollectionData_notes]
      exact (importNotesGo_map_agree _ _ _ _ src.notes tgt.notes hNodup sc.nid).symm
    · rw [sweepCard_ord]
      exact h2
  obtain ⟨hna, hca, hcnt⟩ := importCollectionData_noop_conditions nd2 nc2 src
    (importCollectionData nd1 nc1 src tgt).1 hcov hcards
  exact ⟨by rw [hna, List.length_map], by rw [hca, List.length_map], hcnt⟩

/-- Witness for C3: merging `src0` into `tgtB` twice concretely keeps the
second merge a no-op (2 notes and 2 cards both times, 0 cards imported). -/
theorem merge_twice_noop_witness :
    (importCollectionData 30 31 src0
        (importCollectionData 10 11 src0 tgtB).1).1.notes.length
      = (importCollectionData 10 11 src0 tgtB).1.notes.length ∧
    (importCollectionData 30 31 src0
        (importCollectionData 10 11 src0 tgtB).1).1.cards.length
      = (importCollectionData 10 11 src0 tgtB).1.cards.length ∧
    (importCollectionData 30 31 src0 (importCollectionData 10 11 src0 tgtB).1).2 = 0 :=
  merge_twice_noop 10 11 30 31 src0 tgtB (by decide)
